import Mathlib

/-!
Verification development for the amazon-order-trends repository.

The definitions below are a shallow embedding of the two core subsystems:
the ingestion job engine (`ingestion/ingestion_script.py` together with the
manual-job driver in `backend/api/services/ingestion_service.py`) and the
price-watch engine (`backend/api/services/price_service.py`).  Pure Python
functions become Lean functions; the database becomes an explicit value of
a `DB` type threaded through the run; the event generator becomes a
function producing the list of yielded events; network calls and the
thread pool are modelled by environment functions supplying each call's
outcome, with the as-completed consumption order given as a permutation of
the submitted order numbers.
-/

namespace AOT

/-- Character-list test: does `needle` occur at the start of `hay`?
Used to model Python's `in` substring operator. -/
def startsWith : List Char → List Char → Bool
  | [], _ => true
  | _ :: _, [] => false
  | a :: as, b :: bs => a = b && startsWith as bs

/-- Substring containment on character lists (Python `needle in hay`). -/
def containsSub (needle : List Char) : List Char → Bool
  | [] => needle.isEmpty
  | c :: t => startsWith needle (c :: t) || containsSub needle t

/-- Python `needle in hay` for strings. -/
def strContains (hay needle : String) : Bool :=
  containsSub needle.toList hay.toList

/-- Python truthiness of an optional string: `None` and `""` are falsy. -/
def truthy : Option String → Bool
  | none => false
  | some s => s ≠ ""

/-! ## Price-watch engine (`backend/api/services/price_service.py`) -/

/-- The parts of a fetched product page that `get_amazon_price` inspects,
after the HTML has been parsed: the page `<title>` text (stripped, `""`
when absent), the text of each title selector in priority order, and the
raw price text assembled from the price selectors (`None` when no price
element matched). -/
structure Page where
  title_text : String
  product_title : Option String
  meta_title : Option String
  og_title : Option String
  h1_title : Option String
  price_text : Option String
  deriving DecidableEq, Repr

/-- Outcome of `requests.get` + parse: either the request/parse raised
(`requests.RequestException` or any parsing error), or a parsed page. -/
inductive FetchResult where
  | failure (msg : String)
  | page (p : Page)
  deriving DecidableEq, Repr

/-- `re.sub(r'[^\d.]', '', text)`: keep only digits and dots. -/
def cleanPriceText (s : String) : String :=
  String.mk (s.toList.filter (fun c => c.isDigit || c = '.'))

/-- Python `float(s)` on a string of digits and dots: at most one dot and
at least one digit, else `ValueError` (modelled as `none`). -/
def parseFloat (s : String) : Option ℚ :=
  match s.splitOn "." with
  | [a] =>
      if a ≠ "" ∧ a.toList.all Char.isDigit then some (a.toNat! : ℚ) else none
  | [a, b] =>
      if (a ++ b) ≠ "" ∧ (a ++ b).toList.all Char.isDigit then
        some ((a.toNat! : ℚ) + (b.toNat! : ℚ) / ((10 : ℚ) ^ b.length))
      else none
  | _ => none

/-- The block-page check of `get_amazon_price`: page title containing
"CAPTCHA" or "Robot Check". -/
def isBlockedPage (p : Page) : Bool :=
  strContains p.title_text "CAPTCHA" || strContains p.title_text "Robot Check"

/-- Title extraction priority chain of `get_amazon_price`: product title,
meta title, og:title, first `h1`, cleaned page title, else the
"Unknown Product" sentinel.  Each candidate is skipped when falsy. -/
def extractTitle (p : Page) : String :=
  if truthy p.product_title then p.product_title.getD ""
  else if truthy p.meta_title then p.meta_title.getD ""
  else if truthy p.og_title then p.og_title.getD ""
  else if truthy p.h1_title then p.h1_title.getD ""
  else
    let clean := ((p.title_text.replace "Amazon.com: " "").replace " : Amazon.com" "").trim
    if clean ≠ "" then clean else "Unknown Product"

/-- `get_amazon_price(url)` modelled on the outcome of its page fetch:
returns `(price, title, currency)`; a request failure or a blocking
interstitial page yields `(none, none, none)`. -/
def get_amazon_price (r : FetchResult) : Option ℚ × Option String × Option String :=
  match r with
  | .failure _ => (none, none, none)
  | .page p =>
      if isBlockedPage p then (none, none, none)
      else
        let title := extractTitle p
        let price := match p.price_text with
          | none => none
          | some t => parseFloat (cleanPriceText t)
        (price, some title, some "$")

/-- One stored `price_history` row: price and the date part of
`recorded_at` (days since epoch). -/
structure HistoryEntry where
  price : ℚ
  recorded_date : ℤ
  deriving DecidableEq, Repr

/-- The `should_insert` decision of `update_all_prices`: insert when there
is no prior history entry, or the fetched price differs from the last
entry's price, or the last entry was recorded on a day strictly before
today. -/
def should_insert (lastEntry : Option (ℚ × ℤ)) (price : ℚ) (today : ℤ) : Bool :=
  match lastEntry with
  | none => true
  | some (lastPrice, lastDate) =>
      if price ≠ lastPrice then true
      else decide (lastDate < today)

/-- The `should_notify` decision of `update_all_prices`: only in the
`price < last_price` branch, only with a configured threshold value, and
only when the drop magnitude meets the threshold under the configured
type (`percent` relative to the prior price, `absolute` difference). -/
def should_notify (lastPrice : Option ℚ) (price : ℚ)
    (thresholdType : Option String) (thresholdValue : Option ℚ) : Bool :=
  match lastPrice with
  | none => false
  | some lp =>
      if price < lp then
        match thresholdValue with
        | none => false
        | some v =>
            if thresholdType = some "percent" then
              decide (|((price - lp) / lp) * 100| ≥ v)
            else if thresholdType = some "absolute" then
              decide (|price - lp| ≥ v)
            else false
      else false

/-- The history list (most recent first) after one price check that
obtained `price` on day `today`. -/
def historyAfterCheck (hist : List HistoryEntry) (price : ℚ) (today : ℤ) :
    List HistoryEntry :=
  if should_insert ((hist.head?).map fun e => (e.price, e.recorded_date)) price today then
    ⟨price, today⟩ :: hist
  else hist

/-- One `tracked_items` row as read and written by `update_all_prices`. -/
structure TrackedItem where
  id : ℕ
  url : String
  user_id : String
  threshold_type : Option String
  threshold_value : Option ℚ
  name : Option String
  is_custom_name : Bool
  current_price : Option ℚ
  last_checked : Option ℤ
  deriving DecidableEq, Repr

/-- The custom-name logic of `update_all_prices`: a custom name wins over
the fetched title; otherwise a falsy fetched title falls back to the
stored name and then to "Unknown Product". -/
def resolveName (it : TrackedItem) (title : Option String) : Option String :=
  if it.is_custom_name && truthy it.name then it.name
  else if !truthy title && truthy it.name then it.name
  else if !truthy title then some "Unknown Product"
  else title

/-- One cycle of `update_all_prices` for a single tracked item, given the
outcome of its page fetch, today's date, the item's stored history (most
recent first) and the user's price-change webhook setting.  Returns the
updated item row, the updated history and whether a price-drop
notification was sent. -/
def processTrackedItem (it : TrackedItem) (hist : List HistoryEntry)
    (fetch : FetchResult) (today : ℤ) (webhook : Option String) :
    TrackedItem × List HistoryEntry × Bool :=
  let res := get_amazon_price fetch
  let title := resolveName it res.2.1
  match res.1 with
  | none => ({ it with last_checked := some today }, hist, false)
  | some p =>
      let lastEntry := hist.head?
      let it' := { it with
        current_price := some p
        last_checked := some today
        name := match title with | some t => some t | none => it.name }
      let hist' := historyAfterCheck hist p today
      let notify := should_notify (lastEntry.map (·.price)) p
        it.threshold_type it.threshold_value
      (it', hist', notify && webhook.isSome)

/-! ## Ingestion engine (`ingestion/ingestion_script.py`) -/

/-- Is `c` a regex word character (`\w`, ASCII view): letter, digit or
underscore. -/
def isWordChar (c : Char) : Bool :=
  c.isAlpha || c.isDigit || c = '_'

/-- Attempt to match `/(dp|gp/product)/(\w\x7b10\x7d)` at the current
position of the character list, returning the ten captured characters. -/
def asinAt (cs : List Char) : Option String :=
  let tryTail (rest : List Char) : Option String :=
    let cand := rest.take 10
    if cand.length = 10 ∧ cand.all isWordChar then some (String.mk cand) else none
  if startsWith "/dp/".toList cs then tryTail (cs.drop 4)
  else if startsWith "/gp/product/".toList cs then tryTail (cs.drop 12)
  else none

/-- Leftmost-match scan over the character list. -/
def asinScan : List Char → Option String
  | [] => none
  | c :: t =>
      match asinAt (c :: t) with
      | some a => some a
      | none => asinScan t

/-- `extract_asin(url)`: first `/dp/` or `/gp/product/` segment followed by
ten word characters, else `None`; a falsy url yields `None`. -/
def extract_asin (url : Option String) : Option String :=
  match url with
  | none => none
  | some s => if s = "" then none else asinScan s.toList

/-- One item of a fetched order, as exposed by the source adapter
(`order.items` elements). -/
structure Item where
  title : String
  link : Option String
  image_link : Option String
  quantity : Option ℕ
  price : Option ℚ
  deriving DecidableEq, Repr

/-- A fetched order, as exposed by the source adapter (`get_order`). -/
structure Order where
  order_number : String
  order_placed_date : ℤ
  grand_total : ℚ
  subscription_discount : Option ℚ
  recipient_name : Option String
  items : List Item
  deriving DecidableEq, Repr

/-- One row of the `orders` table. -/
structure OrderRow where
  order_id : String
  user_id : String
  order_placed_date : ℤ
  grand_total : ℚ
  subscription_discount : Option ℚ
  recipient_name : Option String
  deriving DecidableEq, Repr

/-- One row of the `items` table. -/
structure ItemRow where
  order_id : String
  asin : Option String
  full_title : String
  link : Option String
  thumbnail_url : Option String
  quantity : ℕ
  price_per_unit : Option ℚ
  is_subscribe_and_save : Bool
  deriving DecidableEq, Repr

/-- The relational store as seen by the ingestion engine. -/
structure DB where
  orders : List OrderRow
  items : List ItemRow
  deriving DecidableEq, Repr

/-- The `orders` row the engine inserts for a fetched order. -/
def orderRowOf (user_id : String) (o : Order) : OrderRow :=
  { order_id := o.order_number
    user_id := user_id
    order_placed_date := o.order_placed_date
    grand_total := o.grand_total
    subscription_discount := o.subscription_discount
    recipient_name := o.recipient_name }

/-- The `items` row the engine upserts for one item of a fetched order. -/
def itemRowOf (o : Order) (it : Item) : ItemRow :=
  { order_id := o.order_number
    asin := extract_asin it.link
    full_title := it.title
    link := it.link
    thumbnail_url := it.image_link
    quantity := it.quantity.getD 1
    price_per_unit := it.price
    is_subscribe_and_save := o.subscription_discount.isSome }

/-- `INSERT INTO orders ... ON CONFLICT (order_id) DO NOTHING`. -/
def insertOrderIgnore (rows : List OrderRow) (r : OrderRow) : List OrderRow :=
  if rows.any (fun x => x.order_id = r.order_id) then rows else rows ++ [r]

/-- The conflict key of the `items` upsert. -/
def itemKey (r : ItemRow) : String × String × Option ℚ :=
  (r.order_id, r.full_title, r.price_per_unit)

/-- `INSERT INTO items ... ON CONFLICT (order_id, full_title,
price_per_unit) DO UPDATE SET is_subscribe_and_save = ...,
thumbnail_url = ...`: refresh only the two presentation fields of a
conflicting row, else append. -/
def upsertItem (rows : List ItemRow) (r : ItemRow) : List ItemRow :=
  if rows.any (fun x => itemKey x = itemKey r) then
    rows.map (fun x =>
      if itemKey x = itemKey r then
        { x with is_subscribe_and_save := r.is_subscribe_and_save
                 thumbnail_url := r.thumbnail_url }
      else x)
  else rows ++ [r]

/-- An event yielded by the ingestion generator. -/
inductive Event where
  | status (msg : String)
  | progress (value max : ℕ)
  | error (msg : String)
  | done (msg : String)
  deriving DecidableEq, Repr

/-- Is this an `error` event? -/
def Event.isError : Event → Bool
  | .error _ => true
  | _ => false

/-- Is this a `progress` event? -/
def Event.isProgress : Event → Bool
  | .progress _ _ => true
  | _ => false

/-- Is this a `done` event? -/
def Event.isDone : Event → Bool
  | .done _ => true
  | _ => false

/-- Is this a `status` event? -/
def Event.isStatus : Event → Bool
  | .status _ => true
  | _ => false

/-- The decrypted settings returned by `get_settings` (only the email is
observable in the yielded events). -/
structure Settings where
  email : String
  deriving DecidableEq, Repr

/-- One transaction from the source's transaction listing; `order_number`
is `none` or possibly empty (both falsy values are filtered out). -/
structure Transaction where
  order_number : Option String
  deriving DecidableEq, Repr

/-- The environment of one ingestion run: today's date, the outcome of
each external call, the per-order per-attempt outcome of `get_order`
(`none` models a raised exception), the point at which the DB write block
of an order raises (statement index paired with the exception text,
`none` when all statements succeed), and the order in which the thread
pool completes the submitted futures. -/
structure Env where
  manual_days_override : Option ℤ
  today : ℤ
  settingsResult : Except String Settings
  loginResult : Except String Unit
  transactionsResult : Except String (List Transaction)
  attempts : String → ℕ → Option Order
  dbFailAfter : String → Option (ℕ × String)
  completionOf : List String → List String

/-- The fixed size of the fetch worker pool
(`ThreadPoolExecutor(max_workers=5)`). -/
def max_workers : ℕ := 5

/-- `fetch_order_with_retries`: up to three attempts; a 2-unit
`time.sleep` after each failed attempt other than the last; after the
third failure no exception is raised and the `None` sentinel is returned.
The result is `(fetched order or sentinel, sleeps performed, attempts
made)`. -/
def fetch_order_with_retries (attempts : ℕ → Option Order) :
    Option Order × List ℕ × ℕ :=
  match attempts 0 with
  | some o => (some o, [], 1)
  | none =>
      match attempts 1 with
      | some o => (some o, [2], 2)
      | none =>
          match attempts 2 with
          | some o => (some o, [2, 2], 3)
          | none => (none, [2, 2], 3)

/-- The SQL statements executed for one fetched order: the order insert
followed by one item upsert per line item. -/
def orderStatements (user_id : String) (o : Order) : List (DB → DB) :=
  (fun db => { db with orders := insertOrderIgnore db.orders (orderRowOf user_id o) }) ::
    o.items.map (fun it => fun db => { db with items := upsertItem db.items (itemRowOf o it) })

/-- Apply the first `n` statements (the ones that executed before the
exception was raised). -/
def applyFirst : List (DB → DB) → ℕ → DB → DB
  | _, 0, db => db
  | [], _ + 1, db => db
  | f :: fs, n + 1, db => applyFirst fs n (f db)

/-- The `try`/`except` DB block for one fetched order: either every
statement runs, or the first `n` run and the exception is reported as an
`error` event naming the order. -/
def persistOrder (user_id : String) (failAfter : Option (ℕ × String))
    (db : DB) (o : Order) : DB × List Event :=
  match failAfter with
  | none => ((orderStatements user_id o).foldl (fun d f => f d) db, [])
  | some (n, msg) =>
      (applyFirst (orderStatements user_id o) n db,
       [.error ("Failed to process order " ++ o.order_number ++ " in DB: " ++ msg)])

/-- The mutable state of the as-completed loop. -/
structure LoopState where
  db : DB
  count : ℕ
  total : ℕ
  events : List Event
  error_occurred : Bool
  deriving Repr

/-- The body of the as-completed loop for one completed future: bump the
counter and yield the progress event first; then skip the sentinel and
item-less orders, and otherwise run the DB block. -/
def runStep (user_id : String) (failAfter : Option (ℕ × String))
    (st : LoopState) (fetched : Option Order) : LoopState :=
  let st' := { st with
    count := st.count + 1
    events := st.events ++ [.progress (st.count + 1) st.total]
    error_occurred := st.error_occurred || fetched.isNone }
  match fetched with
  | none => st'
  | some o =>
      if o.items = [] then st'
      else
        let r := persistOrder user_id failAfter st'.db o
        { st' with
          db := r.1
          events := st'.events ++ r.2
          error_occurred := st'.error_occurred || r.2.any Event.isError }

/-- The as-completed loop over the futures, consumed in completion
order. -/
def runLoop (user_id : String) (env : Env) (st : LoopState) :
    List String → LoopState
  | [] => st
  | n :: ns =>
      runLoop user_id env
        (runStep user_id (env.dbFailAfter n) st
          (fetch_order_with_retries (env.attempts n)).1) ns

/-- The outcome of draining the ingestion generator: the yielded events in
order, the final store, the exception (if any) escaping the generator to
the draining caller, the `error_occurred` flag, how many futures the loop
consumed, and whether a session was created / the transaction listing was
fetched. -/
structure RunResult where
  events : List Event
  db : DB
  propagated : Option String
  error_occurred : Bool
  processedCount : ℕ
  sessionCreated : Bool
  fetchedTransactions : Bool
  deriving Repr

/-- `MAX(order_placed_date)` over the user's stored orders. -/
def maxOrderDate (db : DB) (user_id : String) : Option ℤ :=
  ((db.orders.filter (fun r => r.user_id = user_id)).map
    (·.order_placed_date)).foldl
    (fun acc d => match acc with
      | none => some d
      | some m => some (max m d)) none

/-- The sync-window computation of `main`: a supplied override is used
verbatim; otherwise `today - MAX(order_placed_date)` when the user has
stored orders; otherwise the fixed 60-day first-run default. -/
def daysToFetch (env : Env) (user_id : String) (db : DB) : ℤ :=
  match env.manual_days_override with
  | some d => d
  | none =>
      match maxOrderDate db user_id with
      | some last => env.today - last
      | none => 60

/-- The status events announcing the chosen window. -/
def dayEvents (env : Env) (user_id : String) (db : DB) : List Event :=
  match env.manual_days_override with
  | some d =>
      [.status ("Manual override: Fetching orders for the last " ++ toString d ++ " days.")]
  | none =>
      match maxOrderDate db user_id with
      | some last =>
          [.status ("Incremental update: Fetching orders for the last " ++
            toString (env.today - last) ++ " days.")]
      | none =>
          [.status ("Initial import: Fetching orders for the last 60 days.")]

/-- The set of truthy order numbers of the transaction listing
(`\x7bt.order_number for t in transactions if t.order_number\x7d`),
as a duplicate-free list. -/
def orderNumbersOf (txs : List Transaction) : List String :=
  ((txs.filterMap (fun t => t.order_number)).filter (fun s => s ≠ "")).dedup

/-- The order numbers of the listing already stored for this user
(`SELECT order_id FROM orders WHERE user_id = ... AND order_id = ANY(...)`). -/
def existingOf (db : DB) (user_id : String) (nums : List String) : List String :=
  nums.filter (fun n => db.orders.any (fun r => r.user_id = user_id ∧ r.order_id = n))

/-- The new orders left after the dedup filter
(`order_numbers.difference_update(existing_orders)`). -/
def newOrdersOf (db : DB) (user_id : String) (nums : List String) : List String :=
  nums.filter (fun n => ¬ db.orders.any (fun r => r.user_id = user_id ∧ r.order_id = n))

/-- The error-event text of the outermost exception handler. -/
def topError (e : String) : Event :=
  .error ("An unexpected error occurred during ingestion: " ++ e)

/-- The cleanup status event the `finally` block yields after logging the
session out. -/
def logoutEvent : Event := .status "Amazon session logged out."

/-- The ingestion generator `main(user_id, manual_days_override)`, drained
to completion by its caller.  Mirrors the control flow of the script: the
outermost `except` reports any setup exception as a single `error` event
and does not re-raise, and the `finally` block yields the logout status
event whenever a session object was created. -/
def mainRun (env : Env) (user_id : String) (db0 : DB) : RunResult :=
  match env.settingsResult with
  | .error e =>
      { events := [topError e], db := db0, propagated := none,
        error_occurred := true, processedCount := 0,
        sessionCreated := false, fetchedTransactions := false }
  | .ok settings =>
      let days := daysToFetch env user_id db0
      let evs0 := dayEvents env user_id db0
      if days ≤ 0 then
        { events := evs0 ++ [.status "All orders are up to date."], db := db0,
          propagated := none, error_occurred := false, processedCount := 0,
          sessionCreated := false, fetchedTransactions := false }
      else
        let evs1 := evs0 ++
          [.status ("Logging into Amazon as " ++ settings.email ++ "...")]
        match env.loginResult with
        | .error e =>
            { events := evs1 ++ [topError e, logoutEvent], db := db0,
              propagated := none, error_occurred := true, processedCount := 0,
              sessionCreated := true, fetchedTransactions := false }
        | .ok _ =>
            let evs2 := evs1 ++ [.status "Amazon login successful.",
              .status ("Fetching transactions for the last " ++ toString days ++ " days...")]
            match env.transactionsResult with
            | .error e =>
                { events := evs2 ++ [topError e, logoutEvent], db := db0,
                  propagated := none, error_occurred := true, processedCount := 0,
                  sessionCreated := true, fetchedTransactions := false }
            | .ok txs =>
                let nums := orderNumbersOf txs
                if nums = [] then
                  { events := evs2 ++
                      [.status "No new orders found in the specified date range.", logoutEvent],
                    db := db0, propagated := none, error_occurred := false,
                    processedCount := 0, sessionCreated := true,
                    fetchedTransactions := true }
                else
                  let evs3 := evs2 ++ [.status ("Found " ++ toString nums.length ++
                    " orders in the date range. Checking for new orders to import...")]
                  let existing := existingOf db0 user_id nums
                  let evs4 := evs3 ++
                    (if existing = [] then []
                     else [.status ("Found " ++ toString existing.length ++
                       " orders already in the database. Filtering them out.")])
                  let newOrders := newOrdersOf db0 user_id nums
                  if newOrders = [] then
                    { events := evs4 ++
                        [.status "All orders are up to date. No new orders to import.", logoutEvent],
                      db := db0, propagated := none, error_occurred := false,
                      processedCount := 0, sessionCreated := true,
                      fetchedTransactions := true }
                  else
                    let total := newOrders.length
                    let evs5 := evs4 ++ [.progress 0 total,
                      .status ("Found " ++ toString total ++ " new orders to process...")]
                    let fin := runLoop user_id env
                      { db := db0, count := 0, total := total, events := [],
                        error_occurred := false }
                      (env.completionOf newOrders)
                    { events := evs5 ++ fin.events ++
                        [.status "Successfully processed all fetched orders.",
                         .done "Import complete.", logoutEvent],
                      db := fin.db, propagated := none,
                      error_occurred := fin.error_occurred,
                      processedCount := fin.count, sessionCreated := true,
                      fetchedTransactions := true }

/-! ## Manual-job driver (`backend/api/services/ingestion_service.py`) -/

/-- The persisted status of an ingestion job. -/
inductive JobStatus where
  | pending | running | completed | failed
  deriving DecidableEq, Repr

/-- The terminal status `run_manual_ingestion_job` records: the job is set
`running` at the start; every `error` event drained from the generator
sets it `failed`; an exception escaping the generator sets it `failed`;
the finalizer sets `completed` only when the status is still `running`
after the drain. -/
def jobFinalStatus (r : RunResult) : JobStatus :=
  match r.propagated with
  | some _ => .failed
  | none => if r.events.any Event.isError then .failed else .completed

/-- The event prefix of a run that reaches the fetch loop: window
announcement, login and listing statuses, dedup statuses, the initial
zero progress event and the new-order announcement. -/
def preEvents (env : Env) (user : String) (db : DB) (s : Settings)
    (txs : List Transaction) : List Event :=
  dayEvents env user db ++
    [.status ("Logging into Amazon as " ++ s.email ++ "...")] ++
    [.status "Amazon login successful.",
     .status ("Fetching transactions for the last " ++
       toString (daysToFetch env user db) ++ " days...")] ++
    [.status ("Found " ++ toString (orderNumbersOf txs).length ++
      " orders in the date range. Checking for new orders to import...")] ++
    (if existingOf db user (orderNumbersOf txs) = [] then []
     else [.status ("Found " ++ toString (existingOf db user (orderNumbersOf txs)).length ++
       " orders already in the database. Filtering them out.")]) ++
    [.progress 0 (newOrdersOf db user (orderNumbersOf txs)).length,
     .status ("Found " ++ toString (newOrdersOf db user (orderNumbersOf txs)).length ++
       " new orders to process...")]

/-- The loop state at the start of the as-completed loop. -/
def initState (db : DB) (total : ℕ) : LoopState :=
  { db := db, count := 0, total := total, events := [], error_occurred := false }

/-- The loop state after the as-completed loop of a run that reaches the
fetch phase. -/
def loopResult (env : Env) (user : String) (db : DB) (txs : List Transaction) :
    LoopState :=
  runLoop user env
    (initState db (newOrdersOf db user (orderNumbersOf txs)).length)
    (env.completionOf (newOrdersOf db user (orderNumbersOf txs)))

/-- The two uniqueness invariants of the store: order ids are unique in
`orders`, and (order id, title, unit price) keys are unique in `items`. -/
def dbInv (db : DB) : Prop :=
  (db.orders.map (·.order_id)).Nodup ∧ (db.items.map itemKey).Nodup

/-! ## Concrete fixtures used by witnesses and counterexamples -/

/-- The empty relational store. -/
def emptyDB : DB := ⟨[], []⟩

/-- A line item of order "A". -/
def itA : Item :=
  { title := "ta", link := some "https://x/dp/ABCDEFGHIJ",
    image_link := some "img", quantity := some 2, price := some 5 }

/-- A line item of order "B". -/
def itB : Item :=
  { title := "tb", link := none, image_link := none,
    quantity := none, price := some 20 }

/-- A fetched order "A" with one item. -/
def ordA : Order :=
  { order_number := "A", order_placed_date := 100, grand_total := 10,
    subscription_discount := none, recipient_name := some "R",
    items := [itA] }

/-- A fetched order "B" with one subscribe-and-save item. -/
def ordB : Order :=
  { order_number := "B", order_placed_date := 101, grand_total := 20,
    subscription_discount := some 1, recipient_name := none,
    items := [itB] }

/-- A re-ingested row for item `itA` sharing the upsert key but with a new
thumbnail. -/
def itemRowA2 : ItemRow :=
  { itemRowOf ordA itA with thumbnail_url := some "img2", is_subscribe_and_save := true }

/-- A store already holding both orders of the C9 scenario, as after a
first run. -/
def dbPre : DB :=
  { orders := [orderRowOf "u" ordA, orderRowOf "u" ordB],
    items := [itemRowOf ordA itA, itemRowOf ordB itB] }

/-- Fetched-order table used by concrete runs. -/
def ordOfW : String → Order := fun n => if n = "A" then ordA else ordB

/-- Environment of the C9 scenario: override 3 days, two transactions with
distinct order numbers, both fetches succeed first try, no DB failures. -/
def env9 : Env :=
  { manual_days_override := some 3
    today := 200
    settingsResult := .ok { email := "e@x" }
    loginResult := .ok ()
    transactionsResult := .ok [{ order_number := some "A" }, { order_number := some "B" }]
    attempts := fun n _ => if n = "A" then some ordA else if n = "B" then some ordB else none
    dbFailAfter := fun _ => none
    completionOf := id }

/-- Environment for the C1 witness: order "A" succeeds, every attempt for
order "B" raises. -/
def envC1 : Env :=
  { env9 with attempts := fun n _ => if n = "A" then some ordA else none }

/-- Environment for C2: both fetches succeed, the DB write block of order
"B" raises before its first statement. -/
def envC2 : Env :=
  { env9 with dbFailAfter := fun n => if n = "B" then some (0, "boom") else none }

/-- Environment for the C2 counterexample: a single order whose DB write
block raises. -/
def envC2c : Env :=
  { env9 with
    transactionsResult := .ok [{ order_number := some "A" }]
    dbFailAfter := fun _ => some (0, "boom") }

/-- Environment for C3: the setup phase fails at login. -/
def envC3c : Env :=
  { env9 with loginResult := .error "login failed" }

/-- Environment for C3 with the setup failure at the transaction
listing. -/
def envC3t : Env :=
  { env9 with transactionsResult := .error "listing failed" }

/-- Environment for the C4 witness: an explicit non-positive override. -/
def envC4 : Env :=
  { env9 with manual_days_override := some 0 }

/-- An initial loop state over two pending futures. -/
def st0 : LoopState :=
  { db := emptyDB, count := 0, total := 2, events := [], error_occurred := false }

/-- A blocking interstitial page. -/
def blockedPage : Page :=
  { title_text := "Robot Check", product_title := none, meta_title := none,
    og_title := none, h1_title := none, price_text := some "$19.99" }

/-- A tracked item with a 10-percent notification threshold. -/
def itemW : TrackedItem :=
  { id := 1, url := "https://x/dp/ABCDEFGHIJ", user_id := "u",
    threshold_type := some "percent", threshold_value := some 10,
    name := some "Widget", is_custom_name := false,
    current_price := some 100, last_checked := some 4 }

/-! ## Price-watch theorems -/

/-- C6: the claim as stated is false at a concrete input.  With one
history entry of price 10 recorded on day 1 and a check on day 0 (the
recorded date differs from today) at the unchanged price 10, the code
appends nothing, because it only compares the last date with `<`, while
the claim requires an append whenever the dates differ. -/
theorem C6_counterexample :
    historyAfterCheck [⟨10, 1⟩] 10 0 = [⟨10, 1⟩] ∧ (1 : ℤ) ≠ 0 := by
  constructor
  · decide
  · decide

/-- C6 (amended): a new price_history entry is appended if and only if
there is no prior entry, or the fetched price differs from the most
recent entry's price, or the most recent entry's recorded date is
strictly earlier than today; consequently repeated same-day checks at an
unchanged price insert only the first row of that day, and the first
check on a strictly later day at the same price inserts exactly one new
row. -/
theorem C6_history_compaction :
    (∀ (p : ℚ) (t : ℤ), historyAfterCheck [] p t = [⟨p, t⟩])
    ∧ (∀ (hist : List HistoryEntry) (p : ℚ) (t : ℤ) (e : HistoryEntry),
        hist.head? = some e → (p ≠ e.price ∨ e.recorded_date < t) →
        historyAfterCheck hist p t = ⟨p, t⟩ :: hist)
    ∧ (∀ (hist : List HistoryEntry) (p : ℚ) (t : ℤ) (e : HistoryEntry),
        hist.head? = some e → p = e.price → ¬ e.recorded_date < t →
        historyAfterCheck hist p t = hist)
    ∧ (∀ (hist : List HistoryEntry) (p : ℚ) (t : ℤ),
        historyAfterCheck (historyAfterCheck hist p t) p t = historyAfterCheck hist p t)
    ∧ (∀ (hist : List HistoryEntry) (p : ℚ) (t t' : ℤ), t < t' →
        historyAfterCheck (⟨p, t⟩ :: hist) p t' = ⟨p, t'⟩ :: ⟨p, t⟩ :: hist) := by
  refine ⟨?_, ?_, ?_, ?_, ?_⟩
  · intro p t; rfl
  · intro hist p t e he hcond
    rcases hcond with h | h
    · simp [historyAfterCheck, should_insert, he, h]
    · simp only [historyAfterCheck, should_insert, he, Option.map_some]
      by_cases hp : p ≠ e.price
      · simp [hp]
      · simp [hp, h]
  · intro hist p t e he hp hd
    simp [historyAfterCheck, should_insert, he, hp, hd]
  · intro hist p t
    by_cases h : should_insert ((hist.head?).map fun e => (e.price, e.recorded_date)) p t
    · have h1 : historyAfterCheck hist p t = ⟨p, t⟩ :: hist := by
        simp [historyAfterCheck, h]
      rw [h1]
      simp [historyAfterCheck, should_insert]
    · have h1 : historyAfterCheck hist p t = hist := by
        simp [historyAfterCheck, h]
      rw [h1, h1]
  · intro hist p t t' ht
    simp [historyAfterCheck, should_insert, ht]

/-- C6 witness: the amended theorem applied at concrete inputs. -/
theorem C6_history_compaction_witness :
    historyAfterCheck [] (5 : ℚ) 0 = [⟨5, 0⟩]
    ∧ historyAfterCheck (historyAfterCheck [] (5 : ℚ) 0) 5 0 = historyAfterCheck [] 5 0
    ∧ ((0 : ℤ) < 1 ∧ historyAfterCheck [⟨5, 0⟩] (5 : ℚ) 1 = [⟨5, 1⟩, ⟨5, 0⟩]) :=
  ⟨C6_history_compaction.1 5 0,
   C6_history_compaction.2.2.2.1 [] 5 0,
   by decide,
   C6_history_compaction.2.2.2.2 [] 5 0 1 (by decide)⟩

/-- C7: the notification decision fires if and only if the new price is a
strict drop below the most recent stored price, a threshold value is
configured, and the drop magnitude meets or exceeds the threshold under
the configured type — percent of the prior price for `percent`, absolute
difference for `absolute`; without a prior price or without a configured
threshold it never fires; the four concrete spec examples behave as
stated. -/
theorem C7_notification_decision :
    (∀ (p : ℚ) (tt : Option String) (tv : Option ℚ),
        should_notify none p tt tv = false)
    ∧ (∀ (l p : ℚ) (tt : Option String), should_notify (some l) p tt none = false)
    ∧ (∀ (l p v : ℚ) (tt : Option String), 0 < l →
        (should_notify (some l) p tt (some v) = true ↔
          (p < l ∧ ((tt = some "percent" ∧ v ≤ (l - p) / l * 100)
                    ∨ (tt = some "absolute" ∧ v ≤ l - p)))))
    ∧ should_notify (some 100) 80 (some "percent") (some 10) = true
    ∧ should_notify (some 100) 95 (some "percent") (some 10) = false
    ∧ should_notify (some 100) 90 (some "absolute") (some 5) = true := by
  have hiff : ∀ (l p v : ℚ) (tt : Option String), 0 < l →
      (should_notify (some l) p tt (some v) = true ↔
        (p < l ∧ ((tt = some "percent" ∧ v ≤ (l - p) / l * 100)
                  ∨ (tt = some "absolute" ∧ v ≤ l - p)))) := by
    intro l p v tt hl
    by_cases hpl : p < l
    · have habs : |((p - l) / l) * 100| = (l - p) / l * 100 := by
        have h1 : (p - l) / l < 0 := div_neg_of_neg_of_pos (by linarith) hl
        have h2 : ((p - l) / l) * 100 < 0 := by nlinarith
        rw [abs_of_neg h2]; ring
      have habs2 : |p - l| = l - p := by
        rw [abs_of_neg (by linarith : p - l < 0)]; ring
      match tt with
      | none =>
        have hkey : should_notify (some l) p none (some v) = false := by
          simp [should_notify, hpl]
        rw [hkey]
        constructor
        · intro h; cases h
        · rintro ⟨-, ⟨h, -⟩ | ⟨h, -⟩⟩ <;> cases h
      | some s =>
        by_cases hs1 : s = "percent"
        · subst hs1
          have hkey : should_notify (some l) p (some "percent") (some v) = true ↔
              |((p - l) / l) * 100| ≥ v := by
            simp [should_notify, hpl]
          rw [hkey, ge_iff_le, habs]
          constructor
          · intro h; exact ⟨hpl, Or.inl ⟨rfl, h⟩⟩
          · rintro ⟨-, ⟨-, h⟩ | ⟨hbad, -⟩⟩
            · exact h
            · exact absurd (Option.some.inj hbad)
                (by decide : ("percent" : String) ≠ "absolute")
        · by_cases hs2 : s = "absolute"
          · subst hs2
            have hkey : should_notify (some l) p (some "absolute") (some v) = true ↔
                |p - l| ≥ v := by
              simp [should_notify, hpl]
            rw [hkey, ge_iff_le, habs2]
            constructor
            · intro h; exact ⟨hpl, Or.inr ⟨rfl, h⟩⟩
            · rintro ⟨-, ⟨hbad, -⟩ | ⟨-, h⟩⟩
              · exact absurd (Option.some.inj hbad)
                  (by decide : ("absolute" : String) ≠ "percent")
              · exact h
          · have hkey : should_notify (some l) p (some s) (some v) = false := by
              simp [should_notify, hpl, hs1, hs2]
            rw [hkey]
            constructor
            · intro h; cases h
            · rintro ⟨-, ⟨hbad, -⟩ | ⟨hbad, -⟩⟩
              · exact absurd (Option.some.inj hbad) hs1
              · exact absurd (Option.some.inj hbad) hs2
    · have hkey : should_notify (some l) p tt (some v) = false := by
        simp [should_notify, hpl]
      rw [hkey]
      constructor
      · intro h; cases h
      · rintro ⟨h, -⟩; exact absurd h hpl
  refine ⟨?_, ?_, hiff, ?_, ?_, ?_⟩
  · intro p tt tv; rfl
  · intro l p tt
    by_cases hpl : p < l <;> simp [should_notify, hpl]
  · exact (hiff 100 80 10 (some "percent") (by norm_num)).mpr
      ⟨by norm_num, Or.inl ⟨rfl, by norm_num⟩⟩
  · cases hb : should_notify (some 100) 95 (some "percent") (some 10) with
    | false => rfl
    | true =>
      exfalso
      rcases (hiff 100 95 10 (some "percent") (by norm_num)).mp hb with
        ⟨-, ⟨-, h⟩ | ⟨hbad, -⟩⟩
      · norm_num at h
      · exact absurd (Option.some.inj hbad)
          (by decide : ("percent" : String) ≠ "absolute")
  · exact (hiff 100 90 5 (some "absolute") (by norm_num)).mpr
      ⟨by norm_num, Or.inr ⟨rfl, by norm_num⟩⟩

/-- C7 witness: the iff applied at the 100 to 80 percent example. -/
theorem C7_notification_decision_witness :
    (0 : ℚ) < 100
    ∧ (should_notify (some 100) 80 (some "percent") (some 10) = true ↔
        ((80 : ℚ) < 100 ∧ ((some "percent" = some "percent" ∧ (10 : ℚ) ≤ (100 - 80) / 100 * 100)
          ∨ (some "percent" = some "absolute" ∧ (10 : ℚ) ≤ 100 - 80)))) :=
  ⟨by norm_num, C7_notification_decision.2.2.1 100 80 10 (some "percent") (by norm_num)⟩

/-- C8: a failed page request and a blocking/interstitial page (title
containing a block-page marker) both make `get_amazon_price` return
`(none, none, none)`; and for any tracked item whose cycle obtains no
price, the cycle changes only the item's `last_checked` timestamp —
`current_price`, `name` and the price history are untouched and no
notification is sent. -/
theorem C8_blocked_fetch_updates_only_last_checked :
    (∀ msg, get_amazon_price (.failure msg) = (none, none, none))
    ∧ (∀ p : Page, isBlockedPage p = true →
        get_amazon_price (.page p) = (none, none, none))
    ∧ (∀ (it : TrackedItem) (hist : List HistoryEntry) (fetch : FetchResult)
         (today : ℤ) (webhook : Option String),
        (get_amazon_price fetch).1 = none →
        processTrackedItem it hist fetch today webhook =
          ({ it with last_checked := some today }, hist, false)) := by
  refine ⟨fun _ => rfl, ?_, ?_⟩
  · intro p hb
    simp [get_amazon_price, hb]
  · intro it hist fetch today webhook hnone
    simp [processTrackedItem, hnone]

/-- C8 witness: the theorem applied to the concrete Robot Check page. -/
theorem C8_blocked_fetch_witness :
    isBlockedPage blockedPage = true
    ∧ get_amazon_price (.page blockedPage) = (none, none, none)
    ∧ processTrackedItem itemW [⟨100, 4⟩] (.page blockedPage) 5 (some "https://hook") =
        ({ itemW with last_checked := some 5 }, [⟨100, 4⟩], false) :=
  ⟨by decide,
   C8_blocked_fetch_updates_only_last_checked.2.1 blockedPage (by decide),
   C8_blocked_fetch_updates_only_last_checked.2.2 itemW [⟨100, 4⟩]
     (.page blockedPage) 5 (some "https://hook")
     (by decide)⟩

/-! ## Ingestion theorems -/

theorem dayEvents_isStatus (env : Env) (user : String) (db : DB) :
    ∀ e ∈ dayEvents env user db, e.isStatus = true := by
  intro e he
  rcases hov : env.manual_days_override with _ | d
  · rcases hmx : maxOrderDate db user with _ | last <;>
      simp [dayEvents, hov, hmx] at he <;> subst he <;> rfl
  · simp [dayEvents, hov] at he; subst he; rfl

theorem isError_false_of_isStatus (e : Event) (h : e.isStatus = true) :
    e.isError = false := by
  cases e <;> simp_all [Event.isStatus, Event.isError]

/-- C4: the sync-window planner uses a supplied override verbatim (even
when non-positive); otherwise it requests exactly today minus the user's
maximum stored order-placement date when the user has stored orders, and
exactly 60 days otherwise; and a non-positive resulting day count emits a
status event, creates no session (no login), performs no transaction
fetch, leaves the store untouched and terminates as a normal non-error
completion. -/
theorem C4_sync_window :
    (∀ (env : Env) (user : String) (db : DB) (d : ℤ),
        env.manual_days_override = some d → daysToFetch env user db = d)
    ∧ (∀ (env : Env) (user : String) (db : DB) (D : ℤ),
        env.manual_days_override = none → maxOrderDate db user = some D →
        daysToFetch env user db = env.today - D)
    ∧ (∀ (env : Env) (user : String) (db : DB),
        env.manual_days_override = none → maxOrderDate db user = none →
        daysToFetch env user db = 60)
    ∧ (∀ (env : Env) (user : String) (db : DB) (s : Settings),
        env.settingsResult = .ok s → daysToFetch env user db ≤ 0 →
        (mainRun env user db).events =
          dayEvents env user db ++ [.status "All orders are up to date."]
        ∧ (∀ e ∈ (mainRun env user db).events, e.isStatus = true)
        ∧ (mainRun env user db).sessionCreated = false
        ∧ (mainRun env user db).fetchedTransactions = false
        ∧ (mainRun env user db).db = db
        ∧ (mainRun env user db).propagated = none
        ∧ jobFinalStatus (mainRun env user db) = .completed) := by
  refine ⟨?_, ?_, ?_, ?_⟩
  · intro env user db d h; simp [daysToFetch, h]
  · intro env user db D h1 h2; simp [daysToFetch, h1, h2]
  · intro env user db h1 h2; simp [daysToFetch, h1, h2]
  · intro env user db s hs hd
    have hrun : mainRun env user db =
        { events := dayEvents env user db ++ [.status "All orders are up to date."],
          db := db, propagated := none, error_occurred := false,
          processedCount := 0, sessionCreated := false,
          fetchedTransactions := false } := by
      simp [mainRun, hs, hd]
    have hall : ∀ e ∈ (mainRun env user db).events, e.isStatus = true := by
      rw [hrun]
      intro e he
      rcases List.mem_append.mp he with h | h
      · exact dayEvents_isStatus env user db e h
      · simp at h; subst h; rfl
    refine ⟨by rw [hrun], hall, by rw [hrun], by rw [hrun], by rw [hrun],
      by rw [hrun], ?_⟩
    have hprop : (mainRun env user db).propagated = none := by rw [hrun]
    have hne : (mainRun env user db).events.any Event.isError = false := by
      rw [List.any_eq_false]
      intro e he
      rw [isError_false_of_isStatus e (hall e he)]
      simp
    simp [jobFinalStatus, hprop, hne]

/-- C4 witness: the theorem applied to an explicit zero-day override. -/
theorem C4_sync_window_witness :
    envC4.manual_days_override = some 0
    ∧ daysToFetch envC4 "u" emptyDB = 0
    ∧ (envC4.settingsResult = Except.ok { email := "e@x" }
       ∧ daysToFetch envC4 "u" emptyDB ≤ 0
       ∧ (mainRun envC4 "u" emptyDB).sessionCreated = false
       ∧ (mainRun envC4 "u" emptyDB).fetchedTransactions = false
       ∧ (mainRun envC4 "u" emptyDB).db = emptyDB
       ∧ jobFinalStatus (mainRun envC4 "u" emptyDB) = .completed) :=
  ⟨rfl, C4_sync_window.1 envC4 "u" emptyDB 0 rfl,
   rfl, by decide,
   (C4_sync_window.2.2.2 envC4 "u" emptyDB { email := "e@x" } rfl (by decide)).2.2.1,
   (C4_sync_window.2.2.2 envC4 "u" emptyDB { email := "e@x" } rfl (by decide)).2.2.2.1,
   (C4_sync_window.2.2.2 envC4 "u" emptyDB { email := "e@x" } rfl (by decide)).2.2.2.2.1,
   (C4_sync_window.2.2.2 envC4 "u" emptyDB { email := "e@x" } rfl (by decide)).2.2.2.2.2.2⟩

/-- C10: for every completed future, the loop body increments the counter
and emits the progress event before the result is inspected (the first
event added after the previous events is the progress event, whatever the
result is); and when the result is the failure sentinel or an order with
an empty item list, the store is untouched and the progress event is the
only event added — a zero-item order is skipped through exactly the same
path as a failed fetch while still being counted. -/
theorem C10_progress_before_inspection :
    ∀ (user : String) (failAfter : Option (ℕ × String)) (st : LoopState)
      (fetched : Option Order),
      (∃ rest, (runStep user failAfter st fetched).events =
          st.events ++ [.progress (st.count + 1) st.total] ++ rest)
      ∧ (runStep user failAfter st fetched).count = st.count + 1
      ∧ ((fetched = none ∨ ∃ o, fetched = some o ∧ o.items = []) →
          (runStep user failAfter st fetched).db = st.db
          ∧ (runStep user failAfter st fetched).events =
              st.events ++ [.progress (st.count + 1) st.total]) := by
  intro user failAfter st fetched
  cases fetched with
  | none =>
      refine ⟨⟨[], by simp [runStep]⟩, by simp [runStep], ?_⟩
      intro _
      exact ⟨by simp [runStep], by simp [runStep]⟩
  | some o =>
      by_cases hi : o.items = []
      · refine ⟨⟨[], by simp [runStep, hi]⟩, by simp [runStep, hi], ?_⟩
        intro _
        exact ⟨by simp [runStep, hi], by simp [runStep, hi]⟩
      · refine ⟨⟨(persistOrder user failAfter
            ({ st with
               count := st.count + 1
               events := st.events ++ [Event.progress (st.count + 1) st.total]
               error_occurred := st.error_occurred || (some o).isNone } : LoopState).db
            o).2, ?_⟩,
          by simp [runStep, hi], ?_⟩
        · simp [runStep, hi]
        · rintro (h | ⟨o', ho, hi'⟩)
          · cases h
          · rw [Option.some.inj ho] at hi
            exact absurd hi' hi

/-- C10 witness: the loop body applied to the failure sentinel. -/
theorem C10_progress_before_inspection_witness :
    (runStep "u" none st0 none).db = emptyDB
    ∧ (runStep "u" none st0 none).events = [Event.progress 1 2]
    ∧ (runStep "u" none st0 none).count = 1 := by
  have h := C10_progress_before_inspection "u" none st0 none
  exact ⟨(h.2.2 (Or.inl rfl)).1, (h.2.2 (Or.inl rfl)).2, h.2.1⟩

/-! ### Helper lemmas for the fetch loop -/

theorem isProgress_false_of_isStatus (e : Event) (h : e.isStatus = true) :
    e.isProgress = false := by
  cases e <;> simp_all [Event.isStatus, Event.isProgress]

theorem fetch_all_fail (attempts : ℕ → Option Order)
    (h : ∀ i, attempts i = none) :
    fetch_order_with_retries attempts = (none, [2, 2], 3) := by
  simp [fetch_order_with_retries, h 0, h 1, h 2]

theorem fetch_first_try (attempts : ℕ → Option Order) (o : Order)
    (h : attempts 0 = some o) :
    fetch_order_with_retries attempts = (some o, [], 1) := by
  simp [fetch_order_with_retries, h]

theorem insertOrderIgnore_fresh (rows : List OrderRow) (r : OrderRow)
    (h : ∀ x ∈ rows, x.order_id ≠ r.order_id) :
    insertOrderIgnore rows r = rows ++ [r] := by
  have hany : rows.any (fun x => x.order_id = r.order_id) = false := by
    rw [List.any_eq_false]
    intro x hx
    simp only [decide_eq_true_eq]
    exact h x hx
  simp [insertOrderIgnore, hany]

theorem foldl_item_stmts_orders (o : Order) (its : List Item) :
    ∀ db : DB,
      ((its.map (fun it => fun d : DB =>
          { d with items := upsertItem d.items (itemRowOf o it) })).foldl
        (fun d f => f d) db).orders = db.orders := by
  induction its with
  | nil => intro db; rfl
  | cons a t ih =>
      intro db
      simp only [List.map_cons, List.foldl_cons]
      exact ih _

theorem persistOrder_none_orders (user : String) (db : DB) (o : Order) :
    (persistOrder user none db o).1.orders =
      insertOrderIgnore db.orders (orderRowOf user o) := by
  simp only [persistOrder, orderStatements, List.foldl_cons]
  exact foldl_item_stmts_orders o o.items _

theorem persistOrder_none_events (user : String) (db : DB) (o : Order) :
    (persistOrder user none db o).2 = [] := rfl

theorem runStep_good (env : Env) (user : String) (st : LoopState)
    (o : Order) (n : String)
    (hfetch : env.attempts n 0 = some o) (hitems : o.items ≠ [])
    (hdbf : env.dbFailAfter n = none)
    (hfresh : ∀ x ∈ st.db.orders, x.order_id ≠ o.order_number) :
    (runStep user (env.dbFailAfter n) st
        (fetch_order_with_retries (env.attempts n)).1).db.orders =
      st.db.orders ++ [orderRowOf user o]
    ∧ (runStep user (env.dbFailAfter n) st
        (fetch_order_with_retries (env.attempts n)).1).events =
      st.events ++ [.progress (st.count + 1) st.total]
    ∧ (runStep user (env.dbFailAfter n) st
        (fetch_order_with_retries (env.attempts n)).1).count = st.count + 1
    ∧ (runStep user (env.dbFailAfter n) st
        (fetch_order_with_retries (env.attempts n)).1).total = st.total := by
  rw [fetch_first_try (env.attempts n) o hfetch]
  have hins : insertOrderIgnore st.db.orders (orderRowOf user o) =
      st.db.orders ++ [orderRowOf user o] :=
    insertOrderIgnore_fresh _ _ hfresh
  refine ⟨?_, ?_, ?_, ?_⟩ <;>
    simp [runStep, hitems, hdbf, persistOrder_none_orders,
      persistOrder_none_events, hins]

theorem runStep_failed_fetch (env : Env) (user : String) (st : LoopState)
    (n : String) (hb : ∀ i, env.attempts n i = none) :
    runStep user (env.dbFailAfter n) st
        (fetch_order_with_retries (env.attempts n)).1 =
      { st with count := st.count + 1,
                events := st.events ++ [.progress (st.count + 1) st.total],
                error_occurred := true } := by
  rw [fetch_all_fail (env.attempts n) hb]
  simp [runStep]

theorem progress_cons_shift (a total n : ℕ) :
    (List.range (n + 1)).map (fun i => Event.progress (a + 1 + i) total) =
      Event.progress (a + 1) total ::
        (List.range n).map (fun i => Event.progress (a + 1 + 1 + i) total) := by
  rw [List.range_succ_eq_map, List.map_cons, List.map_map]
  refine congrArg₂ _ (by simp) ?_
  apply List.map_congr_left
  intro i _
  have : a + 1 + Nat.succ i = a + 1 + 1 + i := by omega
  simp [Function.comp, this]

/-- The as-completed loop when exactly the order `b` exhausts its retries
and every other submitted order is fetched on the first attempt with a
non-empty item list and persists without error: one progress event per
future in strictly increasing order, and one appended order row per
non-`b` element. -/
theorem runLoop_one_failed (env : Env) (ordOf : String → Order)
    (user b : String) (hb : ∀ i, env.attempts b i = none) :
    ∀ cs : List String,
      (∀ n ∈ cs, n ≠ b →
        env.attempts n 0 = some (ordOf n) ∧ (ordOf n).items ≠ [] ∧
        (ordOf n).order_number = n ∧ env.dbFailAfter n = none) →
      cs.Nodup →
      ∀ st : LoopState,
        (∀ n ∈ cs, ∀ row ∈ st.db.orders, row.order_id ≠ n) →
        (runLoop user env st cs).count = st.count + cs.length
        ∧ (runLoop user env st cs).total = st.total
        ∧ (runLoop user env st cs).events =
            st.events ++ (List.range cs.length).map
              (fun i => Event.progress (st.count + 1 + i) st.total)
        ∧ (runLoop user env st cs).db.orders =
            st.db.orders ++ (cs.filter (· ≠ b)).map
              (fun n => orderRowOf user (ordOf n)) := by
  intro cs
  induction cs with
  | nil =>
      intro _ _ st _
      simp [runLoop]
  | cons c cs ih =>
      intro hgood hnodup st hfresh
      have hnodup' : cs.Nodup := hnodup.of_cons
      have hcnotin : c ∉ cs := (List.nodup_cons.mp hnodup).1
      by_cases hcb : c = b
      · subst hcb
        have hstep := runStep_failed_fetch env user st c hb
        rw [runLoop, hstep]
        have hres := ih
          (fun n hn hne => hgood n (List.mem_cons_of_mem c hn) hne)
          hnodup'
          { st with count := st.count + 1,
                    events := st.events ++ [.progress (st.count + 1) st.total],
                    error_occurred := true }
          (fun n hn row hrow => hfresh n (List.mem_cons_of_mem c hn) row hrow)
        refine ⟨?_, ?_, ?_, ?_⟩
        · rw [hres.1]; simp; omega
        · rw [hres.2.1]
        · rw [hres.2.2.1]
          simp only [List.length_cons, progress_cons_shift]
          simp
        · rw [hres.2.2.2]
          have : (c :: cs).filter (· ≠ c) = cs.filter (· ≠ c) := by
            simp [List.filter_cons]
          rw [this]
      · have hg := hgood c (List.mem_cons_self c cs) hcb
        have hfr : ∀ x ∈ st.db.orders, x.order_id ≠ (ordOf c).order_number := by
          intro x hx
          rw [hg.2.2.1]
          exact hfresh c (List.mem_cons_self c cs) x hx
        have hstep := runStep_good env user st (ordOf c) c hg.1 hg.2.1 hg.2.2.2 hfr
        rw [runLoop]
        have hres := ih
          (fun n hn hne => hgood n (List.mem_cons_of_mem c hn) hne)
          hnodup'
          (runStep user (env.dbFailAfter c) st
            (fetch_order_with_retries (env.attempts c)).1)
          (by
            intro n hn row hrow
            rw [hstep.1] at hrow
            rcases List.mem_append.mp hrow with h | h
            · exact hfresh n (List.mem_cons_of_mem c hn) row h
            · simp at h
              subst h
              simp only [orderRowOf]
              rw [hg.2.2.1]
              intro hcontra
              exact hcnotin (hcontra ▸ hn))
        refine ⟨?_, ?_, ?_, ?_⟩
        · rw [hres.1, hstep.2.2.1]; simp; omega
        · rw [hres.2.1, hstep.2.2.2]
        · rw [hres.2.2.1, hstep.2.1, hstep.2.2.1, hstep.2.2.2]
          simp only [List.length_cons, progress_cons_shift]
          simp
        · rw [hres.2.2.2, hstep.1]
          have : (c :: cs).filter (· ≠ b) = c :: cs.filter (· ≠ b) := by
            simp [List.filter_cons, hcb]
          rw [this]
          simp

/-- On a run whose setup succeeds with a positive window, a non-empty
listing and a non-empty new-order set, the generator's outcome is the
event prefix, the loop events, and the closing status/done/logout
events. -/
theorem mainRun_loop_path (env : Env) (user : String) (db0 : DB)
    (s : Settings) (txs : List Transaction)
    (hs : env.settingsResult = .ok s)
    (hd : 0 < daysToFetch env user db0)
    (hl : env.loginResult = .ok ())
    (ht : env.transactionsResult = .ok txs)
    (hn : orderNumbersOf txs ≠ [])
    (hnew : newOrdersOf db0 user (orderNumbersOf txs) ≠ []) :
    (mainRun env user db0).events =
      preEvents env user db0 s txs ++ (loopResult env user db0 txs).events ++
        [.status "Successfully processed all fetched orders.",
         .done "Import complete.", logoutEvent]
    ∧ (mainRun env user db0).db = (loopResult env user db0 txs).db
    ∧ (mainRun env user db0).processedCount = (loopResult env user db0 txs).count
    ∧ (mainRun env user db0).propagated = none := by
  have hd' : ¬ daysToFetch env user db0 ≤ 0 := not_le.mpr hd
  refine ⟨?_, ?_, ?_, ?_⟩ <;>
    simp [mainRun, hs, hd', hl, ht, hn, hnew, preEvents, loopResult, initState]

theorem preEvents_no_error (env : Env) (user : String) (db : DB)
    (s : Settings) (txs : List Transaction) :
    (preEvents env user db s txs).any Event.isError = false := by
  have hday : (dayEvents env user db).any Event.isError = false := by
    rw [List.any_eq_false]
    intro e he
    rw [isError_false_of_isStatus e (dayEvents_isStatus env user db e he)]
    simp
  simp [preEvents, List.any_append, hday, Event.isError]

theorem preEvents_filter_progress (env : Env) (user : String) (db : DB)
    (s : Settings) (txs : List Transaction) :
    (preEvents env user db s txs).filter Event.isProgress =
      [.progress 0 (newOrdersOf db user (orderNumbersOf txs)).length] := by
  have hday : (dayEvents env user db).filter Event.isProgress = [] := by
    rw [List.filter_eq_nil_iff]
    intro e he
    rw [isProgress_false_of_isStatus e (dayEvents_isStatus env user db e he)]
    simp
  simp [preEvents, List.filter_append, hday, Event.isProgress]

theorem newOrders_nodup (db : DB) (user : String) (txs : List Transaction) :
    (newOrdersOf db user (orderNumbersOf txs)).Nodup :=
  (List.nodup_dedup _).filter _

theorem length_filter_ne_of_nodup (cs : List String) (b : String)
    (h : cs.Nodup) (hmem : b ∈ cs) :
    (cs.filter (· ≠ b)).length = cs.length - 1 := by
  induction cs with
  | nil => cases hmem
  | cons c cs ih =>
      by_cases hcb : c = b
      · subst hcb
        have hnotin : c ∉ cs := (List.nodup_cons.mp h).1
        have hall : List.filter (fun x => decide (x ≠ c)) cs = cs := by
          rw [List.filter_eq_self]
          intro x hx
          simp only [decide_eq_true_eq]
          intro hxc
          exact hnotin (hxc ▸ hx)
        show (List.filter (fun x => decide (x ≠ c)) (c :: cs)).length =
          (c :: cs).length - 1
        rw [List.filter_cons, if_neg (by simp), hall]
        simp
      · have hmem' : b ∈ cs := by
          rcases List.mem_cons.mp hmem with h' | h'
          · exact absurd h'.symm hcb
          · exact h'
        have h1 : 1 ≤ cs.length := List.length_pos.mpr (List.ne_nil_of_mem hmem')
        have := ih (List.nodup_cons.mp h).2 hmem'
        simp only [List.filter_cons, decide_eq_true_eq]
        rw [if_pos hcb]
        simp only [List.length_cons, this]
        omega

theorem progress_range_zero (total n : ℕ) :
    (List.range (n + 1)).map (fun i => Event.progress i total) =
      Event.progress 0 total ::
        (List.range n).map (fun i => Event.progress (0 + 1 + i) total) := by
  rw [List.range_succ_eq_map, List.map_cons, List.map_map]
  refine congrArg₂ _ rfl ?_
  apply List.map_congr_left
  intro i _
  simp only [Function.comp_apply]
  congr 1
  omega

/-- C1: in a run over N new orders where exactly one order's fetch fails
on all three attempts (2-unit sleeps between consecutive attempts, worker
pool fixed at 5) and every other order is fetched with a non-empty item
list and persists cleanly: the failed order degrades to the `none`
sentinel instead of raising, all N futures are consumed, the progress
events are exactly 0/N through N/N, the other N−1 orders are persisted,
and the job's terminal status is completed. -/
theorem C1_partial_failure (env : Env) (user : String) (db0 : DB)
    (s : Settings) (txs : List Transaction) (ordOf : String → Order) (b : String)
    (hs : env.settingsResult = .ok s)
    (hd : 0 < daysToFetch env user db0)
    (hl : env.loginResult = .ok ())
    (ht : env.transactionsResult = .ok txs)
    (hbmem : b ∈ newOrdersOf db0 user (orderNumbersOf txs))
    (hb : ∀ i, env.attempts b i = none)
    (hg : ∀ n ∈ newOrdersOf db0 user (orderNumbersOf txs), n ≠ b →
      env.attempts n 0 = some (ordOf n) ∧ (ordOf n).items ≠ [] ∧
      (ordOf n).order_number = n ∧ env.dbFailAfter n = none)
    (hfresh : ∀ n ∈ newOrdersOf db0 user (orderNumbersOf txs),
      ∀ row ∈ db0.orders, row.order_id ≠ n)
    (hperm : (env.completionOf (newOrdersOf db0 user (orderNumbersOf txs))).Perm
      (newOrdersOf db0 user (orderNumbersOf txs))) :
    max_workers = 5
    ∧ fetch_order_with_retries (env.attempts b) = (none, [2, 2], 3)
    ∧ (mainRun env user db0).processedCount =
        (newOrdersOf db0 user (orderNumbersOf txs)).length
    ∧ Event.progress (newOrdersOf db0 user (orderNumbersOf txs)).length
        (newOrdersOf db0 user (orderNumbersOf txs)).length ∈ (mainRun env user db0).events
    ∧ (mainRun env user db0).events.filter Event.isProgress =
        (List.range ((newOrdersOf db0 user (orderNumbersOf txs)).length + 1)).map
          (fun i => Event.progress i (newOrdersOf db0 user (orderNumbersOf txs)).length)
    ∧ (mainRun env user db0).db.orders.length =
        db0.orders.length + ((newOrdersOf db0 user (orderNumbersOf txs)).length - 1)
    ∧ (∀ n ∈ newOrdersOf db0 user (orderNumbersOf txs), n ≠ b →
        orderRowOf user (ordOf n) ∈ (mainRun env user db0).db.orders)
    ∧ jobFinalStatus (mainRun env user db0) = .completed := by
  have hNO := newOrders_nodup db0 user txs
  have hnumne : orderNumbersOf txs ≠ [] :=
    List.ne_nil_of_mem (List.mem_of_mem_filter hbmem)
  have hnewne : newOrdersOf db0 user (orderNumbersOf txs) ≠ [] :=
    List.ne_nil_of_mem hbmem
  have hpath := mainRun_loop_path env user db0 s txs hs hd hl ht hnumne hnewne
  have hcs_nodup : (env.completionOf (newOrdersOf db0 user (orderNumbersOf txs))).Nodup :=
    hperm.nodup_iff.mpr hNO
  have hloop := runLoop_one_failed env ordOf user b hb
    (env.completionOf (newOrdersOf db0 user (orderNumbersOf txs)))
    (fun n hn hne => hg n (hperm.subset hn) hne)
    hcs_nodup
    (initState db0 (newOrdersOf db0 user (orderNumbersOf txs)).length)
    (fun n hn row hrow => hfresh n (hperm.subset hn) row hrow)
  have hlen : (env.completionOf (newOrdersOf db0 user (orderNumbersOf txs))).length =
      (newOrdersOf db0 user (orderNumbersOf txs)).length := hperm.length_eq
  have hNpos : 0 < (newOrdersOf db0 user (orderNumbersOf txs)).length :=
    List.length_pos.mpr hnewne
  have hfillen : ((env.completionOf (newOrdersOf db0 user (orderNumbersOf txs))).filter
      (· ≠ b)).length = (newOrdersOf db0 user (orderNumbersOf txs)).length - 1 := by
    rw [length_filter_ne_of_nodup _ b hcs_nodup (hperm.mem_iff.mpr hbmem), hlen]
  have hcount : (loopResult env user db0 txs).count =
      (newOrdersOf db0 user (orderNumbersOf txs)).length := by
    rw [loopResult, hloop.1, initState, hlen]
    simp
  have htotal : (loopResult env user db0 txs).total =
      (newOrdersOf db0 user (orderNumbersOf txs)).length := by
    rw [loopResult, hloop.2.1, initState]
  have hevents : (loopResult env user db0 txs).events =
      (List.range (env.completionOf (newOrdersOf db0 user (orderNumbersOf txs))).length).map
        (fun i => Event.progress (0 + 1 + i)
          (newOrdersOf db0 user (orderNumbersOf txs)).length) := by
    rw [loopResult, hloop.2.2.1, initState]
    simp
  have horders : (loopResult env user db0 txs).db.orders =
      db0.orders ++
        ((env.completionOf (newOrdersOf db0 user (orderNumbersOf txs))).filter (· ≠ b)).map
          (fun n => orderRowOf user (ordOf n)) := by
    rw [loopResult, hloop.2.2.2, initState]
  refine ⟨rfl, fetch_all_fail _ hb, ?_, ?_, ?_, ?_, ?_, ?_⟩
  · rw [hpath.2.2.1, hcount]
  · rw [hpath.1]
    refine List.mem_append.mpr (Or.inl (List.mem_append.mpr (Or.inr ?_)))
    rw [hevents]
    refine List.mem_map.mpr
      ⟨(newOrdersOf db0 user (orderNumbersOf txs)).length - 1, ?_, ?_⟩
    · rw [List.mem_range, hlen]; omega
    · congr 1; omega
  · rw [hpath.1]
    rw [List.filter_append, List.filter_append]
    rw [preEvents_filter_progress, hevents, List.filter_map]
    have h1 : (Event.isProgress ∘ fun i => Event.progress (0 + 1 + i)
        (newOrdersOf db0 user (orderNumbersOf txs)).length) = fun _ => true := by
      funext i; rfl
    rw [h1, List.filter_true, hlen]
    have h2 : [Event.status "Successfully processed all fetched orders.",
        Event.done "Import complete.", logoutEvent].filter Event.isProgress = [] := rfl
    rw [h2, List.append_nil, progress_range_zero]
    rfl
  · rw [hpath.2.1, horders, List.length_append, List.length_map, hfillen]
  · intro n hn hne
    rw [hpath.2.1, horders]
    refine List.mem_append.mpr (Or.inr (List.mem_map.mpr ⟨n, ?_, rfl⟩))
    rw [List.mem_filter]
    refine ⟨hperm.mem_iff.mpr hn, ?_⟩
    simp [hne]
  · have hanye : (mainRun env user db0).events.any Event.isError = false := by
      rw [hpath.1, List.any_eq_false]
      intro e he
      rcases List.mem_append.mp he with he1 | he2
      · rcases List.mem_append.mp he1 with hp | hl2
        · have hpre := preEvents_no_error env user db0 s txs
          rw [List.any_eq_false] at hpre
          exact hpre e hp
        · rw [hevents] at hl2
          rcases List.mem_map.mp hl2 with ⟨i, -, rfl⟩
          simp [Event.isError]
      · fin_cases he2 <;> simp [Event.isError, logoutEvent]
    simp [jobFinalStatus, hpath.2.2.2, hanye]

/-- C1 witness: two new orders, order "B" failing all retries. -/
theorem C1_partial_failure_witness :
    (newOrdersOf emptyDB "u"
      (orderNumbersOf [{ order_number := some "A" }, { order_number := some "B" }])).length = 2
    ∧ fetch_order_with_retries (envC1.attempts "B") = (none, [2, 2], 3)
    ∧ (mainRun envC1 "u" emptyDB).processedCount = 2
    ∧ Event.progress 2 2 ∈ (mainRun envC1 "u" emptyDB).events
    ∧ (mainRun envC1 "u" emptyDB).db.orders.length = 1
    ∧ jobFinalStatus (mainRun envC1 "u" emptyDB) = .completed := by
  have h := C1_partial_failure envC1 "u" emptyDB { email := "e@x" }
    [{ order_number := some "A" }, { order_number := some "B" }] ordOfW "B"
    rfl (by decide) rfl rfl (by decide) (fun i => rfl) (by decide) (by decide)
    (List.Perm.refl _)
  exact ⟨rfl, h.2.1, h.2.2.1, h.2.2.2.1, h.2.2.2.2.2.1, h.2.2.2.2.2.2.2⟩

theorem applyFirst_orders_of_items (o : Order) :
    ∀ (its : List Item) (k : ℕ) (db : DB),
      (applyFirst (its.map (fun it => fun d : DB =>
        { d with items := upsertItem d.items (itemRowOf o it) })) k db).orders =
        db.orders := by
  intro its
  induction its with
  | nil => intro k db; cases k <;> rfl
  | cons a t ih =>
      intro k db
      cases k with
      | zero => rfl
      | succ k =>
          simp only [List.map_cons, applyFirst]
          exact ih k _

theorem persistOrder_some_orders (user : String) (k : ℕ) (msg : String)
    (db : DB) (o : Order) :
    (persistOrder user (some (k, msg)) db o).1.orders = db.orders ∨
    (persistOrder user (some (k, msg)) db o).1.orders =
      insertOrderIgnore db.orders (orderRowOf user o) := by
  cases k with
  | zero => left; rfl
  | succ k =>
      right
      simp only [persistOrder, orderStatements, applyFirst]
      exact applyFirst_orders_of_items o o.items k _

theorem persistOrder_some_events (user : String) (k : ℕ) (msg : String)
    (db : DB) (o : Order) :
    (persistOrder user (some (k, msg)) db o).2 =
      [.error ("Failed to process order " ++ o.order_number ++ " in DB: " ++ msg)] :=
  rfl

theorem runStep_dbfail (env : Env) (user : String) (st : LoopState)
    (o : Order) (n : String) (k : ℕ) (msg : String)
    (hfetch : env.attempts n 0 = some o) (hitems : o.items ≠ [])
    (hdbf : env.dbFailAfter n = some (k, msg)) :
    (runStep user (env.dbFailAfter n) st
        (fetch_order_with_retries (env.attempts n)).1).events =
      st.events ++ [.progress (st.count + 1) st.total] ++
        [.error ("Failed to process order " ++ o.order_number ++ " in DB: " ++ msg)]
    ∧ ((runStep user (env.dbFailAfter n) st
        (fetch_order_with_retries (env.attempts n)).1).db.orders = st.db.orders ∨
       (runStep user (env.dbFailAfter n) st
        (fetch_order_with_retries (env.attempts n)).1).db.orders =
          insertOrderIgnore st.db.orders (orderRowOf user o))
    ∧ (runStep user (env.dbFailAfter n) st
        (fetch_order_with_retries (env.attempts n)).1).count = st.count + 1
    ∧ (runStep user (env.dbFailAfter n) st
        (fetch_order_with_retries (env.attempts n)).1).total = st.total := by
  rw [fetch_first_try (env.attempts n) o hfetch]
  have hdb : (runStep user (env.dbFailAfter n) st
      ((some o, ([] : List ℕ), 1)).1).db =
      (persistOrder user (some (k, msg)) st.db o).1 := by
    simp [runStep, hitems, hdbf]
  refine ⟨?_, ?_, ?_, ?_⟩
  · simp [runStep, hitems, hdbf, persistOrder_some_events]
  · rw [hdb]
    exact persistOrder_some_orders user k msg st.db o
  · simp [runStep, hitems, hdbf]
  · simp [runStep, hitems, hdbf]

/-- The as-completed loop when every submitted order is fetched on the
first attempt with a non-empty item list: however many per-order DB write
blocks raise, every future is consumed, each DB failure is reported as an
error event, and each order whose DB block succeeds has its row
persisted. -/
theorem runLoop_continue (env : Env) (ordOf : String → Order) (user : String) :
    ∀ cs : List String,
      (∀ n ∈ cs, env.attempts n 0 = some (ordOf n) ∧ (ordOf n).items ≠ [] ∧
        (ordOf n).order_number = n) →
      cs.Nodup →
      ∀ st : LoopState,
        (∀ n ∈ cs, ∀ row ∈ st.db.orders, row.order_id ≠ n) →
        (runLoop user env st cs).count = st.count + cs.length
        ∧ (runLoop user env st cs).total = st.total
        ∧ (∃ t, (runLoop user env st cs).events = st.events ++ t)
        ∧ (∃ t, (runLoop user env st cs).db.orders = st.db.orders ++ t)
        ∧ (∀ n ∈ cs, ∀ k msg, env.dbFailAfter n = some (k, msg) →
            Event.error ("Failed to process order " ++ n ++ " in DB: " ++ msg) ∈
              (runLoop user env st cs).events)
        ∧ (∀ n ∈ cs, env.dbFailAfter n = none →
            orderRowOf user (ordOf n) ∈ (runLoop user env st cs).db.orders) := by
  intro cs
  induction cs with
  | nil =>
      intro _ _ st _
      refine ⟨by simp [runLoop], by simp [runLoop], ⟨[], by simp [runLoop]⟩,
        ⟨[], by simp [runLoop]⟩, ?_, ?_⟩ <;> intro n hn <;> cases hn
  | cons c cs ih =>
      intro hok hnodup st hfresh
      have hnodup' : cs.Nodup := hnodup.of_cons
      have hcnotin : c ∉ cs := (List.nodup_cons.mp hnodup).1
      have hc := hok c (List.mem_cons_self c cs)
      rcases hdf : env.dbFailAfter c with _ | ⟨k, msg⟩
      · -- DB block of c succeeds
        have hfr : ∀ x ∈ st.db.orders, x.order_id ≠ (ordOf c).order_number := by
          intro x hx
          rw [hc.2.2]
          exact hfresh c (List.mem_cons_self c cs) x hx
        have hstep := runStep_good env user st (ordOf c) c hc.1 hc.2.1 hdf hfr
        rw [runLoop]
        have hres := ih (fun n hn => hok n (List.mem_cons_of_mem c hn)) hnodup'
          (runStep user (env.dbFailAfter c) st
            (fetch_order_with_retries (env.attempts c)).1)
          (by
            intro n hn row hrow
            rw [hstep.1] at hrow
            rcases List.mem_append.mp hrow with h | h
            · exact hfresh n (List.mem_cons_of_mem c hn) row h
            · simp at h
              subst h
              simp only [orderRowOf]
              rw [hc.2.2]
              intro hcontra
              exact hcnotin (hcontra ▸ hn))
        refine ⟨?_, ?_, ?_, ?_, ?_, ?_⟩
        · rw [hres.1, hstep.2.2.1]; simp only [List.length_cons]; omega
        · rw [hres.2.1, hstep.2.2.2]
        · obtain ⟨t, htev⟩ := hres.2.2.1
          exact ⟨[Event.progress (st.count + 1) st.total] ++ t,
            by rw [htev, hstep.2.1]; simp⟩
        · obtain ⟨t, htdb⟩ := hres.2.2.2.1
          exact ⟨[orderRowOf user (ordOf c)] ++ t,
            by rw [htdb, hstep.1]; simp⟩
        · intro n hn k' msg' hdf'
          rcases List.mem_cons.mp hn with h | h
          · subst h
            rw [hdf] at hdf'
            cases hdf'
          · exact hres.2.2.2.2.1 n h k' msg' hdf'
        · intro n hn hdf'
          rcases List.mem_cons.mp hn with h | h
          · subst h
            obtain ⟨t, htdb⟩ := hres.2.2.2.1
            rw [htdb, hstep.1]
            refine List.mem_append.mpr (Or.inl (List.mem_append.mpr (Or.inr ?_)))
            simp
          · exact hres.2.2.2.2.2 n h hdf'
      · -- DB block of c raises after k statements
        have hstep := runStep_dbfail env user st (ordOf c) c k msg hc.1 hc.2.1 hdf
        rw [runLoop]
        have hfresh1 : ∀ n ∈ cs, ∀ row ∈ (runStep user (env.dbFailAfter c) st
            (fetch_order_with_retries (env.attempts c)).1).db.orders,
            row.order_id ≠ n := by
          intro n hn row hrow
          rcases hstep.2.1 with h | h
          · rw [h] at hrow
            exact hfresh n (List.mem_cons_of_mem c hn) row hrow
          · rw [h] at hrow
            unfold insertOrderIgnore at hrow
            by_cases hany : st.db.orders.any
                (fun x => x.order_id = (orderRowOf user (ordOf c)).order_id)
            · rw [if_pos hany] at hrow
              exact hfresh n (List.mem_cons_of_mem c hn) row hrow
            · rw [if_neg hany] at hrow
              rcases List.mem_append.mp hrow with h' | h'
              · exact hfresh n (List.mem_cons_of_mem c hn) row h'
              · simp at h'
                subst h'
                simp only [orderRowOf]
                rw [hc.2.2]
                intro hcontra
                exact hcnotin (hcontra ▸ hn)
        have hres := ih (fun n hn => hok n (List.mem_cons_of_mem c hn)) hnodup'
          (runStep user (env.dbFailAfter c) st
            (fetch_order_with_retries (env.attempts c)).1)
          hfresh1
        refine ⟨?_, ?_, ?_, ?_, ?_, ?_⟩
        · rw [hres.1, hstep.2.2.1]; simp only [List.length_cons]; omega
        · rw [hres.2.1, hstep.2.2.2]
        · obtain ⟨t, htev⟩ := hres.2.2.1
          refine ⟨[Event.progress (st.count + 1) st.total,
            Event.error ("Failed to process order " ++ (ordOf c).order_number ++
              " in DB: " ++ msg)] ++ t, ?_⟩
          rw [htev, hstep.1]
          simp
        · obtain ⟨t, htdb⟩ := hres.2.2.2.1
          rcases hstep.2.1 with h | h
          · exact ⟨t, by rw [htdb, h]⟩
          · rw [htdb, h]
            unfold insertOrderIgnore
            by_cases hany : st.db.orders.any
                (fun x => x.order_id = (orderRowOf user (ordOf c)).order_id)
            · rw [if_pos hany]
              exact ⟨t, rfl⟩
            · rw [if_neg hany]
              exact ⟨[orderRowOf user (ordOf c)] ++ t, by simp⟩
        · intro n hn k' msg' hdf'
          rcases List.mem_cons.mp hn with h | h
          · subst h
            obtain ⟨t, htev⟩ := hres.2.2.1
            rw [htev, hstep.1]
            rw [hdf] at hdf'
            have hmsg : msg' = msg := by
              cases hdf'
              rfl
            subst hmsg
            refine List.mem_append.mpr (Or.inl (List.mem_append.mpr (Or.inr ?_)))
            rw [hc.2.2]
            simp
          · exact hres.2.2.2.2.1 n h k' msg' hdf'
        · intro n hn hdf'
          rcases List.mem_cons.mp hn with h | h
          · subst h
            rw [hdf] at hdf'
            cases hdf'
          · exact hres.2.2.2.2.2 n h hdf'

/-- C2: the claim as stated is false at a concrete input.  A run whose
single order fetches fine but whose DB write block raises yields an
`error` event and still reaches `done`, but the manual-job driver marks
the job `failed` on that event and the finalizer refuses to overwrite
`failed`, so the terminal status is `failed`, not `completed`. -/
theorem C2_counterexample :
    Event.error "Failed to process order A in DB: boom" ∈
        (mainRun envC2c "u" emptyDB).events
    ∧ Event.done "Import complete." ∈ (mainRun envC2c "u" emptyDB).events
    ∧ jobFinalStatus (mainRun envC2c "u" emptyDB) = .failed
    ∧ jobFinalStatus (mainRun envC2c "u" emptyDB) ≠ .completed := by
  refine ⟨by decide, by decide, by decide, by decide⟩

/-- C2 (amended): when one or more orders fail during the DB write step
after a successful fetch, each failure is reported as an `error` event,
the loop still consumes every future (the run continues and the
generator still emits `done`), and every order whose DB block succeeded
is persisted — but the job's terminal status is `failed`, because the
manual-job driver sets `failed` on the first `error` event and
`completed` is only written when the status is still `running`. -/
theorem C2_db_write_failure (env : Env) (user : String) (db0 : DB)
    (s : Settings) (txs : List Transaction) (ordOf : String → Order)
    (c : String) (k : ℕ) (msg : String)
    (hs : env.settingsResult = .ok s)
    (hd : 0 < daysToFetch env user db0)
    (hl : env.loginResult = .ok ())
    (ht : env.transactionsResult = .ok txs)
    (hok : ∀ n ∈ newOrdersOf db0 user (orderNumbersOf txs),
      env.attempts n 0 = some (ordOf n) ∧ (ordOf n).items ≠ [] ∧
      (ordOf n).order_number = n)
    (hcmem : c ∈ newOrdersOf db0 user (orderNumbersOf txs))
    (hcfail : env.dbFailAfter c = some (k, msg))
    (hfresh : ∀ n ∈ newOrdersOf db0 user (orderNumbersOf txs),
      ∀ row ∈ db0.orders, row.order_id ≠ n)
    (hperm : (env.completionOf (newOrdersOf db0 user (orderNumbersOf txs))).Perm
      (newOrdersOf db0 user (orderNumbersOf txs))) :
    Event.error ("Failed to process order " ++ c ++ " in DB: " ++ msg) ∈
        (mainRun env user db0).events
    ∧ (mainRun env user db0).processedCount =
        (newOrdersOf db0 user (orderNumbersOf txs)).length
    ∧ Event.done "Import complete." ∈ (mainRun env user db0).events
    ∧ (∀ n ∈ newOrdersOf db0 user (orderNumbersOf txs),
        env.dbFailAfter n = none →
        orderRowOf user (ordOf n) ∈ (mainRun env user db0).db.orders)
    ∧ jobFinalStatus (mainRun env user db0) = .failed := by
  have hNO := newOrders_nodup db0 user txs
  have hnumne : orderNumbersOf txs ≠ [] :=
    List.ne_nil_of_mem (List.mem_of_mem_filter hcmem)
  have hnewne : newOrdersOf db0 user (orderNumbersOf txs) ≠ [] :=
    List.ne_nil_of_mem hcmem
  have hpath := mainRun_loop_path env user db0 s txs hs hd hl ht hnumne hnewne
  have hcs_nodup : (env.completionOf (newOrdersOf db0 user (orderNumbersOf txs))).Nodup :=
    hperm.nodup_iff.mpr hNO
  have hloop := runLoop_continue env ordOf user
    (env.completionOf (newOrdersOf db0 user (orderNumbersOf txs)))
    (fun n hn => hok n (hperm.subset hn))
    hcs_nodup
    (initState db0 (newOrdersOf db0 user (orderNumbersOf txs)).length)
    (fun n hn row hrow => hfresh n (hperm.subset hn) row hrow)
  have herr : Event.error ("Failed to process order " ++ c ++ " in DB: " ++ msg) ∈
      (loopResult env user db0 txs).events :=
    hloop.2.2.2.2.1 c (hperm.mem_iff.mpr hcmem) k msg hcfail
  refine ⟨?_, ?_, ?_, ?_, ?_⟩
  · rw [hpath.1]
    exact List.mem_append.mpr (Or.inl (List.mem_append.mpr (Or.inr herr)))
  · rw [hpath.2.2.1, loopResult, hloop.1, initState, hperm.length_eq]
    simp
  · rw [hpath.1]
    refine List.mem_append.mpr (Or.inr ?_)
    simp
  · intro n hn hdf
    rw [hpath.2.1]
    exact hloop.2.2.2.2.2 n (hperm.mem_iff.mpr hn) hdf
  · have hany : (mainRun env user db0).events.any Event.isError = true := by
      rw [List.any_eq_true]
      refine ⟨Event.error ("Failed to process order " ++ c ++ " in DB: " ++ msg), ?_, rfl⟩
      rw [hpath.1]
      exact List.mem_append.mpr (Or.inl (List.mem_append.mpr (Or.inr herr)))
    simp [jobFinalStatus, hpath.2.2.2, hany]

/-- C2 witness: two new orders, the DB block of order "B" raising before
its first statement. -/
theorem C2_db_write_failure_witness :
    Event.error "Failed to process order B in DB: boom" ∈
        (mainRun envC2 "u" emptyDB).events
    ∧ (mainRun envC2 "u" emptyDB).processedCount = 2
    ∧ Event.done "Import complete." ∈ (mainRun envC2 "u" emptyDB).events
    ∧ jobFinalStatus (mainRun envC2 "u" emptyDB) = .failed := by
  have h := C2_db_write_failure envC2 "u" emptyDB { email := "e@x" }
    [{ order_number := some "A" }, { order_number := some "B" }] ordOfW
    "B" 0 "boom"
    rfl (by decide) rfl rfl (by decide) (by decide) rfl (by decide)
    (List.Perm.refl _)
  exact ⟨h.1, h.2.1, h.2.2.1, h.2.2.2.2⟩

theorem dayEvents_filter_error (env : Env) (user : String) (db : DB) :
    (dayEvents env user db).filter Event.isError = [] := by
  rw [List.filter_eq_nil_iff]
  intro e he
  rw [isError_false_of_isStatus e (dayEvents_isStatus env user db e he)]
  simp

/-- C3: the claim as stated is false at a concrete input.  With the setup
phase failing at login, the generator reports the error event, runs its
`finally` cleanup and then terminates normally — it never re-raises, so no
exception reaches the caller draining the generator. -/
theorem C3_counterexample :
    (mainRun envC3c "u" emptyDB).propagated = none
    ∧ topError "login failed" ∈ (mainRun envC3c "u" emptyDB).events
    ∧ jobFinalStatus (mainRun envC3c "u" emptyDB) = .failed := by
  refine ⟨by decide, by decide, by decide⟩

/-- C3 (amended): an uncaught exception escaping the sequential setup
phase (here: authentication, or the transaction-listing fetch) is
reported exactly once as an `error` event, the job status becomes
`failed`, the `finally` cleanup (session logout and its status event)
still runs as the final event — but the exception is not re-raised: the
generator terminates normally and the failure is surfaced to the
draining caller only through the `error` event. -/
theorem C3_setup_failure (env : Env) (user : String) (db0 : DB) (s : Settings)
    (hs : env.settingsResult = .ok s) (hd : 0 < daysToFetch env user db0) :
    (∀ e, env.loginResult = .error e →
      (mainRun env user db0).events =
        dayEvents env user db0 ++
          [.status ("Logging into Amazon as " ++ s.email ++ "..."),
           topError e, logoutEvent]
      ∧ (mainRun env user db0).events.filter Event.isError = [topError e]
      ∧ jobFinalStatus (mainRun env user db0) = .failed
      ∧ (mainRun env user db0).events.getLast? = some logoutEvent
      ∧ (mainRun env user db0).propagated = none)
    ∧ (∀ e, env.loginResult = .ok () → env.transactionsResult = .error e →
      (mainRun env user db0).events =
        dayEvents env user db0 ++
          [.status ("Logging into Amazon as " ++ s.email ++ "..."),
           .status "Amazon login successful.",
           .status ("Fetching transactions for the last " ++
             toString (daysToFetch env user db0) ++ " days..."),
           topError e, logoutEvent]
      ∧ (mainRun env user db0).events.filter Event.isError = [topError e]
      ∧ jobFinalStatus (mainRun env user db0) = .failed
      ∧ (mainRun env user db0).events.getLast? = some logoutEvent
      ∧ (mainRun env user db0).propagated = none) := by
  have hd' : ¬ daysToFetch env user db0 ≤ 0 := not_le.mpr hd
  constructor
  · intro e hl
    have hrun : (mainRun env user db0).events =
        dayEvents env user db0 ++
          [.status ("Logging into Amazon as " ++ s.email ++ "..."),
           topError e, logoutEvent] := by
      simp [mainRun, hs, hd', hl]
    have hprop : (mainRun env user db0).propagated = none := by
      simp [mainRun, hs, hd', hl]
    have hfil : (mainRun env user db0).events.filter Event.isError = [topError e] := by
      rw [hrun, List.filter_append, dayEvents_filter_error]
      rfl
    have hany : (mainRun env user db0).events.any Event.isError = true := by
      rw [List.any_eq_true]
      exact ⟨topError e, by rw [hrun]; simp, rfl⟩
    refine ⟨hrun, hfil, by simp [jobFinalStatus, hprop, hany], ?_, hprop⟩
    have hconc : (mainRun env user db0).events =
        (dayEvents env user db0 ++
          [.status ("Logging into Amazon as " ++ s.email ++ "..."), topError e]) ++
          [logoutEvent] := by
      rw [hrun]; simp
    rw [hconc, List.getLast?_concat]
  · intro e hl ht
    have hrun : (mainRun env user db0).events =
        dayEvents env user db0 ++
          [.status ("Logging into Amazon as " ++ s.email ++ "..."),
           .status "Amazon login successful.",
           .status ("Fetching transactions for the last " ++
             toString (daysToFetch env user db0) ++ " days..."),
           topError e, logoutEvent] := by
      simp [mainRun, hs, hd', hl, ht]
    have hprop : (mainRun env user db0).propagated = none := by
      simp [mainRun, hs, hd', hl, ht]
    have hfil : (mainRun env user db0).events.filter Event.isError = [topError e] := by
      rw [hrun, List.filter_append, dayEvents_filter_error]
      rfl
    have hany : (mainRun env user db0).events.any Event.isError = true := by
      rw [List.any_eq_true]
      exact ⟨topError e, by rw [hrun]; simp, rfl⟩
    refine ⟨hrun, hfil, by simp [jobFinalStatus, hprop, hany], ?_, hprop⟩
    have hconc : (mainRun env user db0).events =
        (dayEvents env user db0 ++
          [.status ("Logging into Amazon as " ++ s.email ++ "..."),
           .status "Amazon login successful.",
           .status ("Fetching transactions for the last " ++
             toString (daysToFetch env user db0) ++ " days..."),
           topError e]) ++ [logoutEvent] := by
      rw [hrun]; simp
    rw [hconc, List.getLast?_concat]

/-- C3 witness: the theorem applied at a failing login and a failing
transaction listing. -/
theorem C3_setup_failure_witness :
    jobFinalStatus (mainRun envC3c "u" emptyDB) = .failed
    ∧ (mainRun envC3c "u" emptyDB).events.getLast? = some logoutEvent
    ∧ (mainRun envC3c "u" emptyDB).propagated = none
    ∧ jobFinalStatus (mainRun envC3t "u" emptyDB) = .failed
    ∧ (mainRun envC3t "u" emptyDB).events.filter Event.isError =
        [topError "listing failed"] := by
  have h1 := (C3_setup_failure envC3c "u" emptyDB { email := "e@x" }
    rfl (by decide)).1 "login failed" rfl
  have h2 := (C3_setup_failure envC3t "u" emptyDB { email := "e@x" }
    rfl (by decide)).2 "listing failed" rfl rfl
  exact ⟨h1.2.2.1, h1.2.2.2.1, h1.2.2.2.2, h2.2.2.1, h2.2.1⟩

/-- C9: the claim as stated is false at the scenario's concrete input.
The stream does contain the `done` event, but it is not the last event:
the `finally` block still yields the session-logout status event after
`done`, so the stream ends in a `status` event. -/
theorem C9_counterexample :
    (mainRun env9 "u" emptyDB).events.getLast? =
        some (Event.status "Amazon session logged out.")
    ∧ Event.done "Import complete." ∈ (mainRun env9 "u" emptyDB).events
    ∧ ((mainRun env9 "u" emptyDB).events.getLast?.map Event.isDone) = some false := by
  refine ⟨by decide, by decide, by decide⟩

/-- C9 (amended): override days=3, empty store, two transactions with
distinct order numbers, both fetches succeeding with one item each: two
order rows and two item rows are persisted, the terminal job status is
completed, and the event stream ends with the `done` event followed only
by the final session-logout `status` event. -/
theorem C9_scenario :
    (mainRun env9 "u" emptyDB).db.orders.length = 2
    ∧ (mainRun env9 "u" emptyDB).db.items.length = 2
    ∧ jobFinalStatus (mainRun env9 "u" emptyDB) = .completed
    ∧ (mainRun env9 "u" emptyDB).events.drop
        ((mainRun env9 "u" emptyDB).events.length - 2) =
        [Event.done "Import complete.", Event.status "Amazon session logged out."] := by
  refine ⟨by decide, by decide, by decide, by decide⟩

/-! ### Store-invariant preservation (for C5) -/

theorem insertOrderIgnore_nodup (rows : List OrderRow) (r : OrderRow)
    (h : (rows.map (·.order_id)).Nodup) :
    ((insertOrderIgnore rows r).map (·.order_id)).Nodup := by
  unfold insertOrderIgnore
  by_cases hany : rows.any (fun x => x.order_id = r.order_id)
  · rw [if_pos hany]; exact h
  · rw [if_neg hany, List.map_append]
    rw [List.nodup_append]
    refine ⟨h, List.nodup_singleton _, ?_⟩
    intro a ha hb
    simp only [List.map_cons, List.map_nil, List.mem_singleton] at hb
    subst hb
    rcases List.mem_map.mp ha with ⟨x, hx, hxa⟩
    rw [List.any_eq_true] at hany
    exact hany ⟨x, hx, by simp [hxa]⟩

theorem upsertItem_nodup (rows : List ItemRow) (r : ItemRow)
    (h : (rows.map itemKey).Nodup) :
    ((upsertItem rows r).map itemKey).Nodup := by
  unfold upsertItem
  by_cases hany : rows.any (fun x => itemKey x = itemKey r)
  · rw [if_pos hany]
    have hkeys : (rows.map (fun x =>
        if itemKey x = itemKey r then
          { x with is_subscribe_and_save := r.is_subscribe_and_save,
                   thumbnail_url := r.thumbnail_url }
        else x)).map itemKey = rows.map itemKey := by
      rw [List.map_map]
      apply List.map_congr_left
      intro x _
      by_cases hx : itemKey x = itemKey r
      · simp only [Function.comp_apply, if_pos hx]
        rfl
      · simp only [Function.comp_apply, if_neg hx]
    rw [hkeys]; exact h
  · rw [if_neg hany, List.map_append, List.nodup_append]
    refine ⟨h, List.nodup_singleton _, ?_⟩
    intro a ha hb
    simp only [List.map_cons, List.map_nil, List.mem_singleton] at hb
    subst hb
    rcases List.mem_map.mp ha with ⟨x, hx, hxa⟩
    rw [List.any_eq_true] at hany
    exact hany ⟨x, hx, by simp [hxa]⟩

theorem stmts_preserve_inv (user : String) (o : Order) :
    ∀ f ∈ orderStatements user o, ∀ db : DB, dbInv db → dbInv (f db) := by
  intro f hf db h
  rcases List.mem_cons.mp hf with h1 | h1
  · subst h1
    exact ⟨insertOrderIgnore_nodup _ _ h.1, h.2⟩
  · rcases List.mem_map.mp h1 with ⟨it, -, rfl⟩
    exact ⟨h.1, upsertItem_nodup _ _ h.2⟩

theorem foldl_preserve_inv :
    ∀ fs : List (DB → DB), (∀ f ∈ fs, ∀ db : DB, dbInv db → dbInv (f db)) →
      ∀ db, dbInv db → dbInv (fs.foldl (fun d f => f d) db) := by
  intro fs
  induction fs with
  | nil => intro _ db h; exact h
  | cons f t ih =>
      intro hfs db h
      simp only [List.foldl_cons]
      exact ih (fun g hg => hfs g (List.mem_cons_of_mem f hg)) _
        (hfs f (List.mem_cons_self f t) db h)

theorem applyFirst_preserve_inv :
    ∀ fs : List (DB → DB), (∀ f ∈ fs, ∀ db : DB, dbInv db → dbInv (f db)) →
      ∀ (k : ℕ) (db : DB), dbInv db → dbInv (applyFirst fs k db) := by
  intro fs
  induction fs with
  | nil => intro _ k db h; cases k <;> exact h
  | cons f t ih =>
      intro hfs k db h
      cases k with
      | zero => exact h
      | succ k =>
          simp only [applyFirst]
          exact ih (fun g hg => hfs g (List.mem_cons_of_mem f hg)) k _
            (hfs f (List.mem_cons_self f t) db h)

theorem persistOrder_inv (user : String) (fa : Option (ℕ × String))
    (db : DB) (o : Order) (h : dbInv db) :
    dbInv (persistOrder user fa db o).1 := by
  cases fa with
  | none => exact foldl_preserve_inv _ (stmts_preserve_inv user o) db h
  | some km =>
      rcases km with ⟨k, msg⟩
      exact applyFirst_preserve_inv _ (stmts_preserve_inv user o) k db h

theorem runStep_inv (user : String) (fa : Option (ℕ × String))
    (st : LoopState) (fetched : Option Order) (h : dbInv st.db) :
    dbInv (runStep user fa st fetched).db := by
  cases fetched with
  | none => simpa [runStep] using h
  | some o =>
      by_cases hi : o.items = []
      · simpa [runStep, hi] using h
      · have := persistOrder_inv user fa st.db o h
        simpa [runStep, hi] using this

theorem runLoop_inv (user : String) (env : Env) :
    ∀ (cs : List String) (st : LoopState), dbInv st.db →
      dbInv (runLoop user env st cs).db := by
  intro cs
  induction cs with
  | nil => intro st h; exact h
  | cons c t ih =>
      intro st h
      exact ih _ (runStep_inv user (env.dbFailAfter c) st _ h)

theorem mainRun_inv (env : Env) (user : String) (db0 : DB) (h : dbInv db0) :
    dbInv (mainRun env user db0).db := by
  rcases hs : env.settingsResult with e | s
  · simpa [mainRun, hs] using h
  · by_cases hd : daysToFetch env user db0 ≤ 0
    · simpa [mainRun, hs, hd] using h
    · rcases hl : env.loginResult with e | u
      · simpa [mainRun, hs, hd, hl] using h
      · rcases ht : env.transactionsResult with e | txs
        · simpa [mainRun, hs, hd, hl, ht] using h
        · by_cases hn : orderNumbersOf txs = []
          · simpa [mainRun, hs, hd, hl, ht, hn] using h
          · by_cases hnew : newOrdersOf db0 user (orderNumbersOf txs) = []
            · simpa [mainRun, hs, hd, hl, ht, hn, hnew] using h
            · have := runLoop_inv user env
                (env.completionOf (newOrdersOf db0 user (orderNumbersOf txs)))
                (initState db0 (newOrdersOf db0 user (orderNumbersOf txs)).length) h
              simpa [mainRun, hs, hd, hl, ht, hn, hnew, initState] using this

/-- C5: ingestion is idempotent at the persistence layer: any run
preserves uniqueness of order ids and of (order id, title, unit price)
item keys, so re-running over an overlapping window never duplicates a
row; an item upsert hitting an existing key keeps the table's length and
changes none of the non-presentation columns; and a second run whose
whole listing is already stored for the user writes nothing at all. -/
theorem C5_idempotent_persistence :
    (∀ (env : Env) (user : String) (db : DB), dbInv db →
      dbInv (mainRun env user db).db)
    ∧ (∀ (rows : List ItemRow) (r : ItemRow),
        rows.any (fun x => itemKey x = itemKey r) = true →
        (upsertItem rows r).length = rows.length
        ∧ (upsertItem rows r).map (fun x => (x.order_id, x.asin, x.full_title,
            x.link, x.quantity, x.price_per_unit)) =
          rows.map (fun x => (x.order_id, x.asin, x.full_title, x.link,
            x.quantity, x.price_per_unit)))
    ∧ (∀ (env : Env) (user : String) (db : DB) (s : Settings)
         (txs : List Transaction),
        env.settingsResult = .ok s → env.loginResult = .ok () →
        env.transactionsResult = .ok txs →
        (∀ n ∈ orderNumbersOf txs,
          db.orders.any (fun row => row.user_id = user ∧ row.order_id = n) = true) →
        (mainRun env user db).db = db) := by
  refine ⟨mainRun_inv, ?_, ?_⟩
  · intro rows r hany
    unfold upsertItem
    rw [if_pos hany]
    refine ⟨by simp, ?_⟩
    rw [List.map_map]
    apply List.map_congr_left
    intro x _
    by_cases hx : itemKey x = itemKey r
    · simp [Function.comp, hx]
    · simp [Function.comp, hx]
  · intro env user db s txs hs hl ht hall
    by_cases hd : daysToFetch env user db ≤ 0
    · simp [mainRun, hs, hd]
    · by_cases hn : orderNumbersOf txs = []
      · simp [mainRun, hs, hd, hl, ht, hn]
      · have hnew : newOrdersOf db user (orderNumbersOf txs) = [] := by
          rw [newOrdersOf, List.filter_eq_nil_iff]
          intro n hn'
          have h1 := hall n hn'
          rw [List.any_eq_true] at h1
          obtain ⟨row, hrow, hcond⟩ := h1
          simp only [decide_eq_true_eq] at hcond
          simp
          exact ⟨row, hrow, hcond⟩
        simp [mainRun, hs, hd, hl, ht, hn, hnew]

/-- C5 witness: the invariant holds through the C9 run from an empty
store; a same-key upsert keeps the item-table length; and the C9 run
started from a store already holding both orders writes nothing. -/
theorem C5_idempotent_persistence_witness :
    dbInv (mainRun env9 "u" emptyDB).db
    ∧ ([itemRowOf ordA itA].any (fun x => itemKey x = itemKey itemRowA2) = true
       ∧ (upsertItem [itemRowOf ordA itA] itemRowA2).length = 1)
    ∧ (mainRun env9 "u" dbPre).db = dbPre := by
  refine ⟨?_, ⟨by decide, ?_⟩, ?_⟩
  · exact C5_idempotent_persistence.1 env9 "u" emptyDB (by simp [dbInv, emptyDB])
  · exact (C5_idempotent_persistence.2.1 [itemRowOf ordA itA] itemRowA2 (by decide)).1
  · exact C5_idempotent_persistence.2.2 env9 "u" dbPre { email := "e@x" }
      [{ order_number := some "A" }, { order_number := some "B" }]
      rfl rfl rfl (by decide)

end AOT
